import Mathlib

set_option maxRecDepth 100000

/-!
Verification development for a falling-block puzzle engine
(`src/puyo_game.py`).  The board is a `width × height` grid of cell
colors (`0` = Empty, `1`..`5` = colors), stored as `grid[y][x]` with row
`0` at the top.  We embed the board operations (`is_valid_position`,
`can_place_pair`, `place_puyo`, `apply_gravity`, `find_connected_puyos`,
`find_and_clear_groups`) and the controller operations
(`can_move_pair`, `can_rotate_pair`, `place_current_pair`,
`process_chains`, `spawn_new_pair`, `restart_game`) as Lean functions,
and prove the specification claims about them.

The Python global `random` source is modelled as an explicit stream
`rand : Nat → Nat` together with a cursor index: each call of
`random.randint(1, 5)` consumes the next stream value.
-/

namespace Puyo

/-- The game board: a `width × height` grid of cell colors.  `cell x y`
is the Python `self.grid[y][x]` (row `y` from the top, column `x`); the
function is total, but the program only ever reads and writes cells with
`x < width` and `y < height`. -/
structure GameGrid where
  width : Nat
  height : Nat
  cell : Nat → Nat → Nat

/-- Python `GameGrid.__init__`: an all-Empty grid. -/
def GameGrid.create (w h : Nat) : GameGrid :=
  { width := w, height := h, cell := fun _ _ => 0 }

/-- Grid read at possibly-negative coordinates; the program guards every
such read by a bounds check, so the `toNat` clamp is never observable. -/
def cellAt (g : GameGrid) (p : Int × Int) : Nat :=
  g.cell p.1.toNat p.2.toNat

/-- The in-bounds predicate `0 <= x < width and 0 <= y < height`. -/
def inB (g : GameGrid) (p : Int × Int) : Prop :=
  0 ≤ p.1 ∧ p.1 < (g.width : Int) ∧ 0 ≤ p.2 ∧ p.2 < (g.height : Int)

instance (g : GameGrid) (p : Int × Int) : Decidable (inB g p) := by
  unfold inB; infer_instance

/-- Python `GameGrid.is_valid_position`: in bounds and Empty. -/
def is_valid_position (g : GameGrid) (x y : Int) : Prop :=
  0 ≤ x ∧ x < (g.width : Int) ∧ 0 ≤ y ∧ y < (g.height : Int) ∧ g.cell x.toNat y.toNat = 0

instance (g : GameGrid) (x y : Int) : Decidable (is_valid_position g x y) := by
  unfold is_valid_position; infer_instance

/-- Python `GameGrid.place_puyo`: write `color` at `(x, y)` when in
range, no-op otherwise. -/
def place_puyo (g : GameGrid) (x y : Int) (color : Nat) : GameGrid :=
  if 0 ≤ x ∧ x < (g.width : Int) ∧ 0 ≤ y ∧ y < (g.height : Int) then
    { g with cell := fun a b => if a = x.toNat ∧ b = y.toNat then color else g.cell a b }
  else g

/-- Column `x` of the grid, read top-to-bottom (rows `0..height-1`). -/
def colList (g : GameGrid) (x : Nat) : List Nat :=
  (List.range g.height).map (fun y => g.cell x y)

/-- Python `apply_gravity`, column collection step: scan the rows of
column `x` from the bottom (`y = height-1`) up to the top, keeping the
non-Empty cells in scan order. -/
def columnPuyos (g : GameGrid) (x : Nat) : List Nat :=
  ((List.range g.height).reverse.map (fun y => g.cell x y)).filter (fun c => c ≠ 0)

/-- Python `GameGrid.apply_gravity`: every column is zeroed and its
collected puyos are rewritten at rows `height-1-i`; a cell `(x, y)`
inside the grid thus holds the `(height-1-y)`-th collected puyo of its
column, or `0` when there is none. -/
def apply_gravity (g : GameGrid) : GameGrid :=
  { g with cell := fun x y =>
      if x < g.width ∧ y < g.height then (columnPuyos g x).getD (g.height - 1 - y) 0
      else g.cell x y }

/-- The four neighbor cells of `(x, y)`, in the source's direction order
`[(0,1), (0,-1), (1,0), (-1,0)]` (offsets are `(dx, dy)`). -/
def nbrs (x y : Int) : List (Int × Int) :=
  [(x, y + 1), (x, y - 1), (x + 1, y), (x - 1, y)]

/-- Python `GameGrid.find_connected_puyos`, with the call-stack depth
made explicit as `fuel` (the recursion visits at most `width * height`
cells, so any fuel beyond that bound behaves like the unbounded Python
recursion).  The Python code mutates `visited` in place; here the set is
threaded through and returned next to the connected set. -/
def fcAux (g : GameGrid) :
    Nat → Int → Int → Nat → Finset (Int × Int) → Finset (Int × Int) × Finset (Int × Int)
  | 0, _, _, _, visited => (∅, visited)
  | fuel + 1, x, y, color, visited =>
    if (x, y) ∈ visited then (∅, visited)
    else if ¬ (0 ≤ x ∧ x < (g.width : Int) ∧ 0 ≤ y ∧ y < (g.height : Int) ∧
               g.cell x.toNat y.toNat = color) then (∅, visited)
    else
      let v0 := insert (x, y) visited
      let r1 := fcAux g fuel x (y + 1) color v0
      let r2 := fcAux g fuel x (y - 1) color r1.2
      let r3 := fcAux g fuel (x + 1) y color r2.2
      let r4 := fcAux g fuel (x - 1) y color r3.2
      ({(x, y)} ∪ r1.1 ∪ r2.1 ∪ r3.1 ∪ r4.1, r4.2)

/-- Python `GameGrid.find_connected_puyos` at its natural fuel bound. -/
def find_connected_puyos (g : GameGrid) (x y : Int) (color : Nat)
    (visited : Finset (Int × Int)) : Finset (Int × Int) × Finset (Int × Int) :=
  fcAux g (g.width * g.height + 1) x y color visited

/-- The scan order of `find_and_clear_groups`: `for y in range(height):
for x in range(width)`. -/
def scanList (g : GameGrid) : List (Int × Int) :=
  (List.range g.height).flatMap
    (fun (y : Nat) => (List.range g.width).map (fun (x : Nat) => ((x : Int), (y : Int))))

/-- One step of the `find_and_clear_groups` scan, acting on the state
`(visited, to_clear, groups_cleared)`. -/
def scanStep (g : GameGrid) (st : Finset (Int × Int) × Finset (Int × Int) × Nat)
    (p : Int × Int) : Finset (Int × Int) × Finset (Int × Int) × Nat :=
  if p ∉ st.1 ∧ cellAt g p ≠ 0 then
    let color := cellAt g p
    let r := find_connected_puyos g p.1 p.2 color st.1
    if 4 ≤ r.1.card then (r.2, st.2.1 ∪ r.1, st.2.2 + 1) else (r.2, st.2.1, st.2.2)
  else st

/-- The final `(visited, to_clear, groups_cleared)` state of the
`find_and_clear_groups` scan. -/
def facState (g : GameGrid) : Finset (Int × Int) × Finset (Int × Int) × Nat :=
  (scanList g).foldl (scanStep g) (∅, ∅, 0)

/-- Set every cell of `s` to Empty (`for x, y in to_clear:
self.grid[y][x] = 0`; the program only ever passes in-bounds cells). -/
def clearCells (g : GameGrid) (s : Finset (Int × Int)) : GameGrid :=
  { g with cell := fun a b => if ((a : Int), (b : Int)) ∈ s then 0 else g.cell a b }

/-- Python `GameGrid.find_and_clear_groups`: returns
`(cleared_count, groups_cleared)` together with the mutated grid. -/
def find_and_clear_groups (g : GameGrid) : (Nat × Nat) × GameGrid :=
  (((facState g).2.1.card, (facState g).2.2), clearCells g (facState g).2.1)

/-- Python `GameGrid.is_game_over`: some cell of the top row is
non-Empty. -/
def is_game_over (g : GameGrid) : Prop :=
  ∃ x < g.width, g.cell x 0 ≠ 0

/-- A falling pair: anchor position, the (dead) initial sub position
stored by the constructor, the two colors, and the rotation state
(`0`: sub right, `1`: below, `2`: left, `3`: above). -/
structure PuyoPair where
  main_puyo : Int × Int
  sub_puyo : Int × Int
  main_color : Nat
  sub_color : Nat
  rotation_state : Int

/-- Python `PuyoPair.__init__`. -/
def PuyoPair.create (c1 c2 : Nat) (x y : Int) : PuyoPair :=
  { main_puyo := (x, y), sub_puyo := (x + 1, y), main_color := c1, sub_color := c2,
    rotation_state := 0 }

/-- The rotation-dependent offset, `offsets[rotation_state]` (the
program keeps `rotation_state` in `{0, 1, 2, 3}`). -/
def rotOffset (r : Int) : Int × Int :=
  if r = 0 then (1, 0)
  else if r = 1 then (0, 1)
  else if r = 2 then (-1, 0)
  else (0, -1)

/-- Python `PuyoPair.get_positions`. -/
def PuyoPair.get_positions (p : PuyoPair) : (Int × Int) × (Int × Int) :=
  (p.main_puyo,
   (p.main_puyo.1 + (rotOffset p.rotation_state).1, p.main_puyo.2 + (rotOffset p.rotation_state).2))

/-- Python `PuyoPair.rotate_clockwise` (`%` is Python's nonnegative
modulo, which `Int.emod` matches for a positive modulus). -/
def PuyoPair.rotate_cw (p : PuyoPair) : PuyoPair :=
  { p with rotation_state := (p.rotation_state + 1) % 4 }

/-- Python `PuyoPair.rotate_counter_clockwise`. -/
def PuyoPair.rotate_ccw (p : PuyoPair) : PuyoPair :=
  { p with rotation_state := (p.rotation_state - 1) % 4 }

/-- Python `PuyoPair.move`. -/
def PuyoPair.move (p : PuyoPair) (dx dy : Int) : PuyoPair :=
  { p with main_puyo := (p.main_puyo.1 + dx, p.main_puyo.2 + dy) }

/-- Overwrite the rotation state (the `test_pair.rotation_state = ...`
assignment in `can_move_pair` / `can_rotate_pair`). -/
def PuyoPair.withRot (p : PuyoPair) (r : Int) : PuyoPair :=
  { p with rotation_state := r }

/-- Python `GameGrid.can_place_pair`. -/
def can_place_pair (g : GameGrid) (p : PuyoPair) : Prop :=
  is_valid_position g p.get_positions.1.1 p.get_positions.1.2 ∧
  is_valid_position g p.get_positions.2.1 p.get_positions.2.2

instance (g : GameGrid) (p : PuyoPair) : Decidable (can_place_pair g p) := by
  unfold can_place_pair; infer_instance

/-- The controller state: board, pairs, score, chain counter, game-over
flag (the pygame screen, clock, fonts and timers carry no game logic and
are omitted). -/
structure PuyoGame where
  grid : GameGrid
  current_pair : PuyoPair
  next_pair : PuyoPair
  score : Nat
  chain_count : Nat
  game_over : Bool

/-- Python `PuyoGame.generate_new_pair`: two `random.randint(1, 5)`
draws, modelled by consuming two values of the stream `rand` starting at
cursor `i`; returns the pair and the advanced cursor.  The pair sits at
the default spawn anchor `(GRID_WIDTH // 2 - 1, 0) = (2, 0)`. -/
def generate_new_pair (rand : Nat → Nat) (i : Nat) : PuyoPair × Nat :=
  (PuyoPair.create (rand i) (rand (i + 1)) 2 0, i + 2)

/-- Python `PuyoGame.can_move_pair`: build a test pair by the
constructor, copy the rotation state, translate it, and check
`can_place_pair`. -/
def can_move_pair (game : PuyoGame) (dx dy : Int) : Prop :=
  can_place_pair game.grid
    ((((PuyoPair.create game.current_pair.main_color game.current_pair.sub_color
        game.current_pair.main_puyo.1 game.current_pair.main_puyo.2).withRot
        game.current_pair.rotation_state)).move dx dy)

instance (game : PuyoGame) (dx dy : Int) : Decidable (can_move_pair game dx dy) := by
  unfold can_move_pair; infer_instance

/-- Python `PuyoGame.can_rotate_pair`. -/
def can_rotate_pair (game : PuyoGame) (clockwise : Bool) : Prop :=
  can_place_pair game.grid
    (if clockwise then
      (((PuyoPair.create game.current_pair.main_color game.current_pair.sub_color
         game.current_pair.main_puyo.1 game.current_pair.main_puyo.2).withRot
         game.current_pair.rotation_state)).rotate_cw
     else
      (((PuyoPair.create game.current_pair.main_color game.current_pair.sub_color
         game.current_pair.main_puyo.1 game.current_pair.main_puyo.2).withRot
         game.current_pair.rotation_state)).rotate_ccw)

instance (game : PuyoGame) (b : Bool) : Decidable (can_rotate_pair game b) := by
  unfold can_rotate_pair; infer_instance

/-- The `K_LEFT` / `K_RIGHT` / `K_DOWN` branches of
`PuyoGame.handle_input`: move when `can_move_pair` allows it, otherwise
leave the pair untouched. -/
def try_move (game : PuyoGame) (dx dy : Int) : PuyoGame :=
  if can_move_pair game dx dy then
    { game with current_pair := game.current_pair.move dx dy }
  else game

/-- The `K_z` / `K_x` branches of `PuyoGame.handle_input`: rotate
clockwise when `can_rotate_pair` allows it, otherwise leave the pair
untouched. -/
def try_rotate_cw (game : PuyoGame) : PuyoGame :=
  if can_rotate_pair game true then
    { game with current_pair := game.current_pair.rotate_cw }
  else game

/-- The `K_c` branch of `PuyoGame.handle_input`: rotate
counter-clockwise when `can_rotate_pair` allows it, otherwise leave the
pair untouched. -/
def try_rotate_ccw (game : PuyoGame) : PuyoGame :=
  if can_rotate_pair game false then
    { game with current_pair := game.current_pair.rotate_ccw }
  else game

/-- The settle scan of `place_current_pair`: from row `y`, step down
while the cell directly below is in range and Empty.  The loop advances
at most `height - y` times, so the fuel `(height - y).toNat + 1` makes
the recursion total without changing its result. -/
def settleScanAux (g : GameGrid) (x : Int) : Nat → Int → Int
  | 0, y => y
  | fuel + 1, y =>
    if y + 1 < (g.height : Int) ∧ g.cell x.toNat (y + 1).toNat = 0 then
      settleScanAux g x fuel (y + 1)
    else y

/-- The final resting row of a cell dropped from `(x, y)`. -/
def settleScan (g : GameGrid) (x y : Int) : Int :=
  settleScanAux g x (((g.height : Int) - y).toNat + 1) y

/-- Settle one cell of the pair: scan downward, then `place_puyo` at the
resting row (a silent no-op when that row is out of range). -/
def settleCell (g : GameGrid) (x y : Int) (color : Nat) : GameGrid :=
  place_puyo g x (settleScan g x y) color

/-- Python `PuyoGame.place_current_pair`: settle the main cell, then the
sub cell, each independently against the current grid. -/
def place_current_pair (game : PuyoGame) : PuyoGame :=
  { game with grid :=
      (settleCell
        (settleCell game.grid game.current_pair.get_positions.1.1
          game.current_pair.get_positions.1.2 game.current_pair.main_color)
        game.current_pair.get_positions.2.1 game.current_pair.get_positions.2.2
        game.current_pair.sub_color) }

/-- The settle order Python does not use, defined only to compare
against `place_current_pair`: sub cell first, then main. -/
def place_pair_sub_first (game : PuyoGame) : PuyoGame :=
  { game with grid :=
      (settleCell
        (settleCell game.grid game.current_pair.get_positions.2.1
          game.current_pair.get_positions.2.2 game.current_pair.sub_color)
        game.current_pair.get_positions.1.1 game.current_pair.get_positions.1.2
        game.current_pair.main_color) }

/-- Python `PuyoGame.process_chains` loop body, with the `while True`
loop unrolled on an explicit fuel: apply gravity, find and clear groups,
stop when nothing cleared, otherwise bump the chain counter, add
`cleared * 10 * max(1, chain_count * 2) * groups` to the score and
repeat.  Returns `(grid, score, chain_count)`. -/
def process_chains_aux (fuel : Nat) (g : GameGrid) (score chain : Nat) :
    GameGrid × Nat × Nat :=
  match fuel with
  | 0 => (g, score, chain)
  | fuel + 1 =>
    let g1 := apply_gravity g
    let r := find_and_clear_groups g1
    if r.1.1 = 0 then (r.2, score, chain)
    else process_chains_aux fuel r.2
      (score + r.1.1 * 10 * max 1 ((chain + 1) * 2) * r.1.2) (chain + 1)

/-- The number of occupied (non-Empty, in-bounds) cells of the grid. -/
def rectFinset (g : GameGrid) : Finset (Int × Int) :=
  (Finset.range g.width ×ˢ Finset.range g.height).image
    (fun q => ((q.1 : Int), (q.2 : Int)))

/-- The occupied in-bounds cells, as a finite set. -/
def occFinset (g : GameGrid) : Finset (Int × Int) :=
  (rectFinset g).filter (fun p => cellAt g p ≠ 0)

/-- The number of occupied cells. -/
def occCount (g : GameGrid) : Nat :=
  (occFinset g).card

/-- Python `PuyoGame.process_chains`: reset the chain counter to `0` and
iterate; each clearing pass removes at least 4 occupied cells, so
`width * height / 4 + 1` rounds of fuel provably reach the exit
condition of the `while True` loop. -/
def process_chains (g : GameGrid) (score : Nat) : GameGrid × Nat × Nat :=
  process_chains_aux (g.width * g.height / 4 + 1) g score 0

/-- Python `PuyoGame.spawn_new_pair`: promote the next pair (reset to
the spawn anchor `(2, 0)`, rotation `0`), draw a fresh next pair from
the random stream, and set the game-over flag when the promoted pair
cannot be placed.  Returns the game and the advanced stream cursor. -/
def spawn_new_pair (game : PuyoGame) (rand : Nat → Nat) (i : Nat) : PuyoGame × Nat :=
  let r := generate_new_pair rand i
  let cur := { game.next_pair with main_puyo := ((2 : Int), (0 : Int)), rotation_state := 0 }
  ({ game with
      current_pair := cur
      next_pair := r.1
      game_over := if ¬ can_place_pair game.grid cur then true else game.game_over }, r.2)

/-- The hypothetical spawned pair checked by `spawn_new_pair`. -/
def spawnPair (game : PuyoGame) : PuyoPair :=
  { game.next_pair with main_puyo := ((2 : Int), (0 : Int)), rotation_state := 0 }

/-- Python `PuyoGame.restart_game`: fresh all-Empty `6 × 12` board, two
fresh random pairs, score `0`, chain `0`, game-over cleared. -/
def restart_game (rand : Nat → Nat) (i : Nat) : PuyoGame × Nat :=
  let r1 := generate_new_pair rand i
  let r2 := generate_new_pair rand r1.2
  ({ grid := GameGrid.create 6 12, current_pair := r1.1, next_pair := r2.1,
      score := 0, chain_count := 0, game_over := false }, r2.2)

/-! ### Specification-side notions

The claim language speaks of 4-directionally-connected components of a
single non-Empty color.  These are defined independently of the code's
flood fill, through the reflexive-transitive closure of the one-step
adjacency relation. -/

/-- One connectivity step toward a neighbor of color `c`. -/
def adjStep (g : GameGrid) (c : Nat) (p q : Int × Int) : Prop :=
  q ∈ nbrs p.1 p.2 ∧ inB g q ∧ cellAt g q = c

/-- Reachability through cells of color `c`. -/
def ReachC (g : GameGrid) (c : Nat) (p q : Int × Int) : Prop :=
  Relation.ReflTransGen (adjStep g c) p q

/-- The connected same-color component of `p` (as a set; for an
in-bounds non-Empty `p` this is the claim's "group" containing `p`). -/
def compSet (g : GameGrid) (p : Int × Int) : Set (Int × Int) :=
  { q | ReachC g (cellAt g p) p q }

/-- The cells the claim says `find_and_clear_groups` must clear: members
of a component of size at least 4 of a single non-Empty color. -/
def clearedSpecSet (g : GameGrid) : Set (Int × Int) :=
  { p | inB g p ∧ cellAt g p ≠ 0 ∧ 4 ≤ (compSet g p).ncard }

/-- The qualifying groups themselves: distinct components of occupied
cells with at least 4 members. -/
def qualComps (g : GameGrid) : Set (Set (Int × Int)) :=
  { S | (∃ p, (inB g p ∧ cellAt g p ≠ 0) ∧ S = compSet g p) ∧ 4 ≤ S.ncard }

/-- The test guarding the recursive flood fill: in bounds and of the
color being searched (written exactly as the short-circuit condition of
`find_connected_puyos`). -/
def fcQual (g : GameGrid) (color : Nat) (x y : Int) : Prop :=
  0 ≤ x ∧ x < (g.width : Int) ∧ 0 ≤ y ∧ y < (g.height : Int) ∧ g.cell x.toNat y.toNat = color

instance (g : GameGrid) (color : Nat) (x y : Int) : Decidable (fcQual g color x y) := by
  unfold fcQual; infer_instance

/-! ### Concrete boards and games used in witnesses and counterexamples -/

/-- Build a `6 × 12` grid from rows listed top-to-bottom. -/
def gridOfRows (rows : List (List Nat)) : GameGrid :=
  { width := 6, height := 12, cell := fun x y => (rows.getD y []).getD x 0 }

/-- The all-Empty default board. -/
def emptyGrid : GameGrid := GameGrid.create 6 12

/-- A board whose only occupied cell is `(0, 1)` (color 1), so a cell
dropped down column 0 from the top rests at row 0. -/
def gridC10 : GameGrid :=
  { width := 6, height := 12, cell := fun x y => if x = 0 ∧ y = 1 then 1 else 0 }

/-- A game about to commit a rotation-state-3 pair (sub above main) with
the main anchor at `(0, 0)` over `gridC10`. -/
def gameC10 : PuyoGame :=
  { grid := gridC10,
    current_pair := { main_puyo := (0, 0), sub_puyo := (1, 0), main_color := 2, sub_color := 3,
                      rotation_state := 3 },
    next_pair := PuyoPair.create 1 1 2 0, score := 0, chain_count := 0, game_over := false }

/-- A game about to commit a rotation-state-1 pair (sub below main) at
the top of an empty board: the two cells share column 0. -/
def gameC4 : PuyoGame :=
  { grid := emptyGrid,
    current_pair := { main_puyo := (0, 0), sub_puyo := (1, 0), main_color := 1, sub_color := 2,
                      rotation_state := 1 },
    next_pair := PuyoPair.create 1 1 2 0, score := 0, chain_count := 0, game_over := false }

/-- A board with two separate groups of exactly 4 cells (colors 1 and
2), already resting on the floor. -/
def gridC3 : GameGrid :=
  gridOfRows [[], [], [], [], [], [], [], [], [], [],
    [1, 0, 0, 0, 0, 2],
    [1, 1, 1, 2, 2, 2]]

/-- A generic game over `gridC10` used to instantiate spawn and input
theorems. -/
def gameW : PuyoGame :=
  { grid := gridC10, current_pair := PuyoPair.create 1 2 2 0,
    next_pair := PuyoPair.create 3 4 2 0, score := 0, chain_count := 0, game_over := false }

end Puyo

namespace Puyo

/-! ### Gravity (claim C2) -/

theorem apply_gravity_width (g : GameGrid) : (apply_gravity g).width = g.width := rfl

theorem apply_gravity_height (g : GameGrid) : (apply_gravity g).height = g.height := rfl

theorem apply_gravity_cell (g : GameGrid) (x y : Nat) (hx : x < g.width) (hy : y < g.height) :
    (apply_gravity g).cell x y = (columnPuyos g x).getD (g.height - 1 - y) 0 := by
  simp [apply_gravity, hx, hy]

theorem colList_length (g : GameGrid) (x : Nat) : (colList g x).length = g.height := by
  simp [colList]

theorem columnPuyos_eq (g : GameGrid) (x : Nat) :
    columnPuyos g x = ((colList g x).filter (fun c => c ≠ 0)).reverse := by
  unfold columnPuyos colList
  rw [List.map_reverse, List.filter_reverse]

theorem columnPuyos_length (g : GameGrid) (x : Nat) :
    (columnPuyos g x).length = ((colList g x).filter (fun c => c ≠ 0)).length := by
  rw [columnPuyos_eq, List.length_reverse]

theorem columnPuyos_mem_ne_zero (g : GameGrid) (x : Nat) (c : Nat)
    (hc : c ∈ columnPuyos g x) : c ≠ 0 := by
  unfold columnPuyos at hc
  have := (List.mem_filter.mp hc).2
  simpa using this

theorem filter_colList_length_le (g : GameGrid) (x : Nat) :
    ((colList g x).filter (fun c => c ≠ 0)).length ≤ g.height := by
  calc ((colList g x).filter (fun c => c ≠ 0)).length ≤ (colList g x).length :=
        List.length_filter_le _ _
    _ = g.height := colList_length g x

theorem getD_reverse_eq (l : List Nat) (d : Nat) (i : Nat) (h : i < l.length) :
    l.reverse.getD i d = l.getD (l.length - 1 - i) d := by
  rw [List.getD_eq_getElem _ _ (by simpa using h), List.getElem_reverse,
    List.getD_eq_getElem _ _ (by omega)]

theorem apply_gravity_cell_low (g : GameGrid) (x i : Nat) (hx : x < g.width)
    (hi : i < g.height - ((colList g x).filter (fun c => c ≠ 0)).length) :
    (apply_gravity g).cell x i = 0 := by
  have hk := filter_colList_length_le g x
  have hP := columnPuyos_length g x
  rw [apply_gravity_cell g x i hx (by omega)]
  apply List.getD_eq_default
  omega

theorem apply_gravity_cell_high (g : GameGrid) (x i : Nat) (hx : x < g.width)
    (h1 : g.height - ((colList g x).filter (fun c => c ≠ 0)).length ≤ i)
    (h2 : i < g.height) :
    (apply_gravity g).cell x i =
      ((colList g x).filter (fun c => c ≠ 0)).getD
        (i - (g.height - ((colList g x).filter (fun c => c ≠ 0)).length)) 0 := by
  have hk := filter_colList_length_le g x
  have hP := columnPuyos_length g x
  set F := (colList g x).filter (fun c => c ≠ 0) with hF
  rw [apply_gravity_cell g x i hx h2, columnPuyos_eq g x, ← hF]
  rw [getD_reverse_eq F 0 _ (by omega)]
  congr 1
  omega

theorem colList_apply_gravity (g : GameGrid) (x : Nat) (hx : x < g.width) :
    colList (apply_gravity g) x =
      List.replicate (g.height - ((colList g x).filter (fun c => c ≠ 0)).length) 0 ++
        (colList g x).filter (fun c => c ≠ 0) := by
  have hk := filter_colList_length_le g x
  apply List.ext_getElem?
  intro i
  by_cases hih : i < g.height
  · have hL : (colList (apply_gravity g) x)[i]? = some ((apply_gravity g).cell x i) := by
      unfold colList
      rw [apply_gravity_height, List.getElem?_map, List.getElem?_range hih]
      rfl
    rw [hL, List.getElem?_append]
    by_cases hcase : i < g.height - ((colList g x).filter (fun c => c ≠ 0)).length
    · rw [if_pos (by simpa using hcase), List.getElem?_replicate, if_pos hcase,
        apply_gravity_cell_low g x i hx hcase]
    · have hge : g.height - ((colList g x).filter (fun c => c ≠ 0)).length ≤ i :=
        Nat.le_of_not_lt hcase
      rw [if_neg (by simpa using hcase), List.length_replicate]
      have hb : i - (g.height - ((colList g x).filter (fun c => c ≠ 0)).length) <
          ((colList g x).filter (fun c => c ≠ 0)).length := by omega
      rw [List.getElem?_eq_getElem hb, apply_gravity_cell_high g x i hx hge hih,
        List.getD_eq_getElem _ 0 hb]
  · have hL : (colList (apply_gravity g) x)[i]? = none := by
      apply List.getElem?_eq_none
      rw [colList_length, apply_gravity_height]
      omega
    have hR : (List.replicate
        (g.height - ((colList g x).filter (fun c => c ≠ 0)).length) (0 : Nat) ++
        (colList g x).filter (fun c => c ≠ 0))[i]? = none := by
      apply List.getElem?_eq_none
      rw [List.length_append, List.length_replicate]
      omega
    rw [hL, hR]

theorem gravity_filter_eq (g : GameGrid) (x : Nat) (hx : x < g.width) :
    (colList (apply_gravity g) x).filter (fun c => c ≠ 0) =
      (colList g x).filter (fun c => c ≠ 0) := by
  rw [colList_apply_gravity g x hx, List.filter_append]
  have h0 : (List.replicate
      (g.height - ((colList g x).filter (fun c => c ≠ 0)).length) (0 : Nat)).filter
      (fun c => c ≠ 0) = [] := by
    simp
  rw [h0, List.nil_append]
  apply List.filter_eq_self.mpr
  intro a ha
  exact (List.mem_filter.mp ha).2

/-- C2: `applyGravity` compacts each column independently: afterwards
every non-Empty cell in a column has no Empty cell below it within that
column, the top-to-bottom relative order of the non-Empty cells in each
column is preserved (their filtered column lists agree), and the
multiset of colors in each column is unchanged by the call. -/
theorem claim2_apply_gravity (g : GameGrid) (x : Nat) (hx : x < g.width) :
    (∀ y y', y < y' → y' < g.height →
        (apply_gravity g).cell x y ≠ 0 → (apply_gravity g).cell x y' ≠ 0) ∧
    (colList (apply_gravity g) x).filter (fun c => c ≠ 0) =
      (colList g x).filter (fun c => c ≠ 0) ∧
    (↑(colList (apply_gravity g) x) : Multiset Nat) = ↑(colList g x) := by
  have hk := filter_colList_length_le g x
  refine ⟨?_, ?_, ?_⟩
  · intro y y' hyy hy' hne
    have hy : y < g.height := lt_trans hyy hy'
    have hlow : ¬ y < g.height - ((colList g x).filter (fun c => c ≠ 0)).length := by
      intro hcon
      exact hne (apply_gravity_cell_low g x y hx hcon)
    have hP := columnPuyos_length g x
    rw [apply_gravity_cell g x y' hx hy']
    rw [List.getD_eq_getElem _ _ (by omega : g.height - 1 - y' < (columnPuyos g x).length)]
    exact columnPuyos_mem_ne_zero g x _ (List.getElem_mem _)
  · exact gravity_filter_eq g x hx
  · rw [colList_apply_gravity g x hx]
    apply Multiset.coe_eq_coe.mpr
    have hperm := List.filter_append_perm (fun c => decide (c ≠ 0)) (colList g x)
    have hlen2 : ((colList g x).filter (fun c => !decide (c ≠ 0))).length =
        g.height - ((colList g x).filter (fun c => c ≠ 0)).length := by
      have hle := hperm.length_eq
      rw [List.length_append, colList_length] at hle
      omega
    have hrep : (colList g x).filter (fun c => !decide (c ≠ 0)) =
        List.replicate (g.height - ((colList g x).filter (fun c => c ≠ 0)).length) 0 := by
      refine List.eq_replicate_iff.mpr ⟨hlen2, ?_⟩
      intro b hb
      have := (List.mem_filter.mp hb).2
      simpa using this
    refine List.Perm.trans List.perm_append_comm ?_
    rw [← hrep]
    exact hperm

/-- Witness for C2 at a concrete board and column. -/
theorem claim2_apply_gravity_witness :
    (0 < gridC3.width) ∧
    (colList (apply_gravity gridC3) 0).filter (fun c => c ≠ 0) =
      (colList gridC3 0).filter (fun c => c ≠ 0) :=
  ⟨by decide, (claim2_apply_gravity gridC3 0 (by decide)).2.1⟩

end Puyo
namespace Puyo

/-! ### Input handling (claim C5) -/

theorem can_move_pair_iff (game : PuyoGame) (dx dy : Int) :
    can_move_pair game dx dy ↔ can_place_pair game.grid (game.current_pair.move dx dy) :=
  Iff.rfl

theorem can_rotate_cw_iff (game : PuyoGame) :
    can_rotate_pair game true ↔ can_place_pair game.grid game.current_pair.rotate_cw :=
  Iff.rfl

theorem can_rotate_ccw_iff (game : PuyoGame) :
    can_rotate_pair game false ↔ can_place_pair game.grid game.current_pair.rotate_ccw :=
  Iff.rfl

/-- C5: a proposed move or rotation is committed iff the hypothetical
translated/rotated pair passes `canPlacePair`; on failure the live pair
(anchor and rotation state) is left completely unchanged, and no
wall-kick (alternative placement) is ever attempted on a failed
rotation. -/
theorem claim5_input_commit (game : PuyoGame) (dx dy : Int) :
    (can_move_pair game dx dy ↔ can_place_pair game.grid (game.current_pair.move dx dy)) ∧
    (try_move game dx dy =
      if can_place_pair game.grid (game.current_pair.move dx dy) then
        { game with current_pair := game.current_pair.move dx dy }
      else game) ∧
    (can_rotate_pair game true ↔ can_place_pair game.grid game.current_pair.rotate_cw) ∧
    (can_rotate_pair game false ↔ can_place_pair game.grid game.current_pair.rotate_ccw) ∧
    (try_rotate_cw game =
      if can_place_pair game.grid game.current_pair.rotate_cw then
        { game with current_pair := game.current_pair.rotate_cw }
      else game) ∧
    (try_rotate_ccw game =
      if can_place_pair game.grid game.current_pair.rotate_ccw then
        { game with current_pair := game.current_pair.rotate_ccw }
      else game) := by
  refine ⟨can_move_pair_iff game dx dy, ?_, can_rotate_cw_iff game, can_rotate_ccw_iff game,
    ?_, ?_⟩
  · unfold try_move
    split_ifs with h1 h2 h2
    · rfl
    · exact absurd ((can_move_pair_iff game dx dy).mp h1) h2
    · exact absurd ((can_move_pair_iff game dx dy).mpr h2) h1
    · rfl
  · unfold try_rotate_cw
    split_ifs with h1 h2 h2
    · rfl
    · exact absurd ((can_rotate_cw_iff game).mp h1) h2
    · exact absurd ((can_rotate_cw_iff game).mpr h2) h1
    · rfl
  · unfold try_rotate_ccw
    split_ifs with h1 h2 h2
    · rfl
    · exact absurd ((can_rotate_ccw_iff game).mp h1) h2
    · exact absurd ((can_rotate_ccw_iff game).mpr h2) h1
    · rfl

/-! ### Spawning and restart (claim C6) -/

/-- C6: `spawnNext` sets the game-over flag iff the spawn anchor cells
are not both occupiable on the current board, and `restart` clears
game-over and reinitializes an all-Empty board with score 0. -/
theorem claim6_spawn_restart (game : PuyoGame) (rand : Nat → Nat) (i : Nat)
    (hng : game.game_over = false) :
    ((spawn_new_pair game rand i).1.game_over = true ↔
      ¬ can_place_pair game.grid (spawnPair game)) ∧
    (restart_game rand i).1.game_over = false ∧
    (restart_game rand i).1.score = 0 ∧
    (restart_game rand i).1.grid.width = 6 ∧
    (restart_game rand i).1.grid.height = 12 ∧
    (∀ x y : Nat, (restart_game rand i).1.grid.cell x y = 0) := by
  refine ⟨?_, rfl, rfl, rfl, rfl, fun x y => rfl⟩
  unfold spawn_new_pair spawnPair
  by_cases h : can_place_pair game.grid
      { game.next_pair with main_puyo := ((2 : Int), (0 : Int)), rotation_state := 0 }
  · simp [h, hng]
  · simp [h]

/-- Witness for C6 at a concrete game, stream and cursor. -/
theorem claim6_spawn_restart_witness :
    gameW.game_over = false ∧
    ((spawn_new_pair gameW (fun _ => 1) 0).1.game_over = true ↔
      ¬ can_place_pair gameW.grid (spawnPair gameW)) :=
  ⟨rfl, (claim6_spawn_restart gameW (fun _ => 1) 0 rfl).1⟩

/-! ### The random source (claim C8) -/

/-- C8 as stated is false on the code: `generate_new_pair` calls the
global random source inside the core, so two runs from the same state
receiving the same (empty) input sequence can disagree when the random
draws disagree. -/
theorem claim8_counterexample :
    (spawn_new_pair gameW (fun _ => 1) 0).1 ≠ (spawn_new_pair gameW (fun _ => 2) 0).1 := by
  intro h
  have h2 := congrArg (fun gm => gm.next_pair.main_color) h
  simp [spawn_new_pair, generate_new_pair, PuyoPair.create] at h2

/-- C8 amended: the spawned colors are generated inside the core by the
random stream (two draws per spawn), and the spawn result is a
deterministic function of the game state and the two consumed draws. -/
theorem claim8_amended (game : PuyoGame) (r r' : Nat → Nat) (i i' : Nat)
    (h1 : r i = r' i') (h2 : r (i + 1) = r' (i' + 1)) :
    (spawn_new_pair game r i).1 = (spawn_new_pair game r' i').1 := by
  simp [spawn_new_pair, generate_new_pair, PuyoPair.create, h1, h2]

/-- Witness for the amended C8: two different cursors into the same
stream yield the same spawn result. -/
theorem claim8_amended_witness :
    (spawn_new_pair gameW (fun _ => 3) 0).1 = (spawn_new_pair gameW (fun _ => 3) 5).1 :=
  claim8_amended gameW (fun _ => 3) (fun _ => 3) 0 5 rfl rfl

end Puyo

namespace Puyo

/-! ### Committing a pair (claims C4 and C10) -/

theorem gridExt (a b : GameGrid) (hw : a.width = b.width) (hh : a.height = b.height)
    (hc : ∀ x y, a.cell x y = b.cell x y) : a = b := by
  cases a
  cases b
  dsimp at hw hh hc
  subst hw
  subst hh
  congr 1
  funext x y
  exact hc x y

theorem settleCell_width (g : GameGrid) (x y : Int) (c : Nat) :
    (settleCell g x y c).width = g.width := by
  unfold settleCell place_puyo
  split <;> rfl

theorem settleCell_height (g : GameGrid) (x y : Int) (c : Nat) :
    (settleCell g x y c).height = g.height := by
  unfold settleCell place_puyo
  split <;> rfl

theorem settleCell_cell_ne (g : GameGrid) (x y : Int) (c : Nat) (a b : Nat)
    (hne : a ≠ x.toNat) : (settleCell g x y c).cell a b = g.cell a b := by
  unfold settleCell place_puyo
  split
  · show (if a = x.toNat ∧ b = (settleScan g x y).toNat then c else g.cell a b) = g.cell a b
    exact if_neg (fun hcon => hne hcon.1)
  · rfl

theorem settleCell_out (g : GameGrid) (x y : Int) (c : Nat)
    (hx : ¬ (0 ≤ x ∧ x < (g.width : Int))) : settleCell g x y c = g := by
  unfold settleCell place_puyo
  exact if_neg (fun hcon => hx ⟨hcon.1, hcon.2.1⟩)

theorem settleScanAux_congr (g g' : GameGrid) (x : Int) (hh : g.height = g'.height)
    (hcol : ∀ b : Nat, g.cell x.toNat b = g'.cell x.toNat b) :
    ∀ (fuel : Nat) (y : Int), settleScanAux g x fuel y = settleScanAux g' x fuel y := by
  intro fuel
  induction fuel with
  | zero => intro y; rfl
  | succ n ih =>
    intro y
    unfold settleScanAux
    by_cases hc : y + 1 < (g'.height : Int) ∧ g'.cell x.toNat (y + 1).toNat = 0
    · rw [if_pos (by rw [hh, hcol]; exact hc), if_pos hc]
      exact ih (y + 1)
    · rw [if_neg (by rw [hh, hcol]; exact hc), if_neg hc]

theorem settleScan_congr (g g' : GameGrid) (x y : Int) (hh : g.height = g'.height)
    (hcol : ∀ b : Nat, g.cell x.toNat b = g'.cell x.toNat b) :
    settleScan g x y = settleScan g' x y := by
  unfold settleScan
  rw [hh]
  exact settleScanAux_congr g g' x hh hcol _ y

theorem settleCell_cell_formula (g : GameGrid) (x y : Int) (c : Nat)
    (hx : 0 ≤ x ∧ x < (g.width : Int)) (a b : Nat) :
    (settleCell g x y c).cell a b =
      if a = x.toNat ∧ 0 ≤ settleScan g x y ∧ settleScan g x y < (g.height : Int) ∧
          b = (settleScan g x y).toNat then c
      else g.cell a b := by
  unfold settleCell place_puyo
  by_cases hy : 0 ≤ settleScan g x y ∧ settleScan g x y < (g.height : Int)
  · rw [if_pos ⟨hx.1, hx.2, hy.1, hy.2⟩]
    show (if a = x.toNat ∧ b = (settleScan g x y).toNat then c else g.cell a b) = _
    by_cases hab : a = x.toNat ∧ b = (settleScan g x y).toNat
    · rw [if_pos hab, if_pos ⟨hab.1, hy.1, hy.2, hab.2⟩]
    · rw [if_neg hab, if_neg (fun hcon => hab ⟨hcon.1, hcon.2.2.2⟩)]
  · rw [if_neg (fun hcon => hy ⟨hcon.2.2.1, hcon.2.2.2⟩),
      if_neg (fun hcon => hy ⟨hcon.2.1, hcon.2.2.1⟩)]

theorem settle_comm (g : GameGrid) (x1 y1 : Int) (c1 : Nat) (x2 y2 : Int) (c2 : Nat)
    (hx : x1 ≠ x2) :
    settleCell (settleCell g x1 y1 c1) x2 y2 c2 =
      settleCell (settleCell g x2 y2 c2) x1 y1 c1 := by
  by_cases h1 : 0 ≤ x1 ∧ x1 < (g.width : Int)
  · by_cases h2 : 0 ≤ x2 ∧ x2 < (g.width : Int)
    · have htoNat : x1.toNat ≠ x2.toNat := by omega
      have hcol1 : ∀ b : Nat, (settleCell g x2 y2 c2).cell x1.toNat b = g.cell x1.toNat b :=
        fun b => settleCell_cell_ne g x2 y2 c2 x1.toNat b htoNat
      have hcol2 : ∀ b : Nat, (settleCell g x1 y1 c1).cell x2.toNat b = g.cell x2.toNat b :=
        fun b => settleCell_cell_ne g x1 y1 c1 x2.toNat b htoNat.symm
      have hscan1 : settleScan (settleCell g x2 y2 c2) x1 y1 = settleScan g x1 y1 :=
        settleScan_congr _ g x1 y1 (settleCell_height g x2 y2 c2) hcol1
      have hscan2 : settleScan (settleCell g x1 y1 c1) x2 y2 = settleScan g x2 y2 :=
        settleScan_congr _ g x2 y2 (settleCell_height g x1 y1 c1) hcol2
      apply gridExt
      · rw [settleCell_width, settleCell_width, settleCell_width, settleCell_width]
      · rw [settleCell_height, settleCell_height, settleCell_height, settleCell_height]
      · intro a b
        rw [settleCell_cell_formula (settleCell g x1 y1 c1) x2 y2 c2
            (by rw [settleCell_width]; exact h2) a b,
          settleCell_cell_formula (settleCell g x2 y2 c2) x1 y1 c1
            (by rw [settleCell_width]; exact h1) a b,
          hscan1, hscan2, settleCell_height, settleCell_height,
          settleCell_cell_formula g x1 y1 c1 h1 a b,
          settleCell_cell_formula g x2 y2 c2 h2 a b]
        by_cases hc1 : a = x1.toNat ∧ 0 ≤ settleScan g x1 y1 ∧
            settleScan g x1 y1 < (g.height : Int) ∧ b = (settleScan g x1 y1).toNat
        · have hc2 : ¬ (a = x2.toNat ∧ 0 ≤ settleScan g x2 y2 ∧
              settleScan g x2 y2 < (g.height : Int) ∧ b = (settleScan g x2 y2).toNat) :=
            fun hcon => htoNat (hc1.1 ▸ hcon.1 ▸ rfl)
          rw [if_neg hc2, if_pos hc1, if_pos hc1]
        · by_cases hc2 : a = x2.toNat ∧ 0 ≤ settleScan g x2 y2 ∧
              settleScan g x2 y2 < (g.height : Int) ∧ b = (settleScan g x2 y2).toNat
          · rw [if_pos hc2, if_neg hc1, if_pos hc2]
          · rw [if_neg hc2, if_neg hc1, if_neg hc1, if_neg hc2]
    · rw [settleCell_out g x2 y2 c2 h2,
        settleCell_out (settleCell g x1 y1 c1) x2 y2 c2
          (by rw [settleCell_width]; exact h2)]
  · rw [settleCell_out g x1 y1 c1 h1,
      settleCell_out (settleCell g x2 y2 c2) x1 y1 c1
        (by rw [settleCell_width]; exact h1)]

end Puyo

namespace Puyo

/-- C4 as stated is false on the code: when the pair's two cells occupy
the same column (here rotation state 1, sub directly below main, over an
empty board), settling main first puts the main color on the floor,
while settling sub first would put the sub color there, so the final
grid depends on the settle order. -/
theorem claim4_counterexample :
    place_current_pair gameC4 ≠ place_pair_sub_first gameC4 := by
  intro h
  have h2 := congrArg (fun gm => gm.grid.cell 0 11) h
  exact absurd h2 (by decide)

/-- C4 amended: `commitPair` settles the pair's cells main first then
sub, each by the downward scan; the final grid is independent of the
settle order whenever the two cells occupy distinct columns (rotation
states 0 and 2), though not in general when they share a column. -/
theorem claim4_amended (g : GameGrid) (x1 y1 : Int) (c1 : Nat) (x2 y2 : Int) (c2 : Nat)
    (hx : x1 ≠ x2) :
    (settleCell (settleCell g x1 y1 c1) x2 y2 c2 =
      settleCell (settleCell g x2 y2 c2) x1 y1 c1) ∧
    (∀ game : PuyoGame, place_current_pair game = { game with grid :=
      (settleCell
        (settleCell game.grid game.current_pair.get_positions.1.1
          game.current_pair.get_positions.1.2 game.current_pair.main_color)
        game.current_pair.get_positions.2.1 game.current_pair.get_positions.2.2
        game.current_pair.sub_color) }) :=
  ⟨settle_comm g x1 y1 c1 x2 y2 c2 hx, fun _ => rfl⟩

/-- Witness for the amended C4 at concrete distinct columns. -/
theorem claim4_amended_witness :
    ((0 : Int) ≠ 1) ∧
    settleCell (settleCell emptyGrid 0 5 1) 1 5 2 =
      settleCell (settleCell emptyGrid 1 5 2) 0 5 1 :=
  ⟨by decide, (claim4_amended emptyGrid 0 5 1 1 5 2 (by decide)).1⟩

/-- C10: committing a rotation-state-3 pair whose main anchor rests at
row 0 silently drops the sub cell: the sub position is row -1, the
downward scan yields resting row -1 (out of range), the permissive place
is a no-op, so the sub color is never written anywhere, no failure is
signalled, and the number of occupied cells grows by exactly one. -/
theorem claim10_silent_drop :
    gameC10.current_pair.get_positions.2 = ((0 : Int), (-1 : Int)) ∧
    settleScan (settleCell gameC10.grid 0 0 2) 0 (-1) = -1 ∧
    (place_current_pair gameC10).grid = settleCell gameC10.grid 0 0 2 ∧
    occCount (place_current_pair gameC10).grid = occCount gameC10.grid + 1 ∧
    (∀ a b : Nat, (place_current_pair gameC10).grid.cell a b ≠ 3) := by
  have hB : settleScan (settleCell gameC10.grid 0 0 2) 0 (-1) = -1 := by decide
  have hC : (place_current_pair gameC10).grid = settleCell gameC10.grid 0 0 2 := by
    have hstep : (place_current_pair gameC10).grid =
        place_puyo (settleCell gameC10.grid 0 0 2) 0
          (settleScan (settleCell gameC10.grid 0 0 2) 0 (-1)) 3 := rfl
    rw [hstep, hB]
    unfold place_puyo
    exact if_neg (by decide)
  refine ⟨by decide, hB, hC, by decide, ?_⟩
  intro a b
  rw [hC]
  have hs : settleScan gameC10.grid 0 0 = 0 := by decide
  have hform := settleCell_cell_formula gameC10.grid 0 0 2 (by decide) a b
  rw [hs] at hform
  rw [hform]
  split
  · decide
  · show (if a = 0 ∧ b = 1 then 1 else 0) ≠ 3
    split
    · decide
    · decide

end Puyo

namespace Puyo

/-! ### Flood-fill soundness and completeness (claims C1 and C9) -/

theorem fcQual_iff (g : GameGrid) (color : Nat) (x y : Int) :
    fcQual g color x y ↔ inB g (x, y) ∧ cellAt g (x, y) = color := by
  unfold fcQual inB cellAt
  tauto

theorem fcAux_eq_of_mem (g : GameGrid) (color fuel : Nat) (x y : Int)
    (V : Finset (Int × Int)) (hv : (x, y) ∈ V) :
    fcAux g (fuel + 1) x y color V = (∅, V) := by
  conv_lhs => rw [fcAux]
  rw [if_pos hv]

theorem fcAux_eq_of_fail (g : GameGrid) (color fuel : Nat) (x y : Int)
    (V : Finset (Int × Int)) (hv : (x, y) ∉ V) (hq : ¬ fcQual g color x y) :
    fcAux g (fuel + 1) x y color V = (∅, V) := by
  conv_lhs => rw [fcAux]
  rw [if_neg hv, if_pos (show ¬ (0 ≤ x ∧ x < (g.width : Int) ∧ 0 ≤ y ∧
    y < (g.height : Int) ∧ g.cell x.toNat y.toNat = color) from hq)]

theorem fcAux_go_ex (g : GameGrid) (color fuel : Nat) (x y : Int)
    (V : Finset (Int × Int)) (hv : (x, y) ∉ V) (hq : fcQual g color x y) :
    ∃ r1 r2 r3 r4 : Finset (Int × Int) × Finset (Int × Int),
      r1 = fcAux g fuel x (y + 1) color (insert (x, y) V) ∧
      r2 = fcAux g fuel x (y - 1) color r1.2 ∧
      r3 = fcAux g fuel (x + 1) y color r2.2 ∧
      r4 = fcAux g fuel (x - 1) y color r3.2 ∧
      fcAux g (fuel + 1) x y color V =
        ({(x, y)} ∪ r1.1 ∪ r2.1 ∪ r3.1 ∪ r4.1, r4.2) := by
  refine ⟨_, _, _, _, rfl, rfl, rfl, rfl, ?_⟩
  conv_lhs => rw [fcAux]
  rw [if_neg hv, if_neg (show ¬ ¬ (0 ≤ x ∧ x < (g.width : Int) ∧ 0 ≤ y ∧
    y < (g.height : Int) ∧ g.cell x.toNat y.toNat = color) from not_not_intro hq)]

theorem fcAux_sound (g : GameGrid) (color : Nat) :
    ∀ (fuel : Nat) (x y : Int) (V : Finset (Int × Int)),
      V ⊆ (fcAux g fuel x y color V).2 ∧
      (fcAux g fuel x y color V).2 = V ∪ (fcAux g fuel x y color V).1 ∧
      (∀ p ∈ (fcAux g fuel x y color V).1, p ∉ V) ∧
      (∀ p ∈ (fcAux g fuel x y color V).1,
        fcQual g color p.1 p.2 ∧ fcQual g color x y ∧ ReachC g color (x, y) p) := by
  intro fuel
  induction fuel with
  | zero =>
    intro x y V
    refine ⟨Finset.Subset.refl V, by simp [fcAux], ?_, ?_⟩ <;> simp [fcAux]
  | succ fuel ih =>
    intro x y V
    by_cases hv : (x, y) ∈ V
    · rw [fcAux_eq_of_mem g color fuel x y V hv]
      refine ⟨Finset.Subset.refl V, by simp, ?_, ?_⟩ <;> simp
    by_cases hq : fcQual g color x y
    case neg =>
      rw [fcAux_eq_of_fail g color fuel x y V hv hq]
      refine ⟨Finset.Subset.refl V, by simp, ?_, ?_⟩ <;> simp
    case pos =>
      obtain ⟨r1, r2, r3, r4, e1, e2, e3, e4, heq⟩ := fcAux_go_ex g color fuel x y V hv hq
      rw [heq]
      have i1 := ih x (y + 1) (insert (x, y) V)
      rw [← e1] at i1
      have i2 := ih x (y - 1) r1.2
      rw [← e2] at i2
      have i3 := ih (x + 1) y r2.2
      rw [← e3] at i3
      have i4 := ih (x - 1) y r3.2
      rw [← e4] at i4
      have hsub : V ⊆ r4.2 := by
        refine Finset.Subset.trans ?_ (Finset.Subset.trans i1.1
          (Finset.Subset.trans i2.1 (Finset.Subset.trans i3.1 i4.1)))
        exact Finset.subset_insert _ V
      refine ⟨hsub, ?_, ?_, ?_⟩
      · show r4.2 = V ∪ ({(x, y)} ∪ r1.1 ∪ r2.1 ∪ r3.1 ∪ r4.1)
        ext p
        simp only [i4.2.1, i3.2.1, i2.2.1, i1.2.1, Finset.mem_union, Finset.mem_insert,
          Finset.mem_singleton]
        tauto
      · intro p hp
        simp only [Finset.mem_union, Finset.mem_singleton] at hp
        rcases hp with (((hp | hp) | hp) | hp) | hp
        · intro hcon; rw [hp] at hcon; exact hv hcon
        · intro hcon
          exact i1.2.2.1 p hp (Finset.mem_insert_of_mem hcon)
        · intro hcon
          exact i2.2.2.1 p hp (i1.1 (Finset.mem_insert_of_mem hcon))
        · intro hcon
          exact i3.2.2.1 p hp (i2.1 (i1.1 (Finset.mem_insert_of_mem hcon)))
        · intro hcon
          exact i4.2.2.1 p hp (i3.1 (i2.1 (i1.1 (Finset.mem_insert_of_mem hcon))))
      · intro p hp
        simp only [Finset.mem_union, Finset.mem_singleton] at hp
        have hstep : ∀ (a b : Int), (a, b) ∈ nbrs x y → fcQual g color a b →
            ∀ q : Int × Int, ReachC g color (a, b) q → ReachC g color (x, y) q := by
          intro a b hmem hq' q hr
          refine Relation.ReflTransGen.head ?_ hr
          exact ⟨hmem, ((fcQual_iff g color a b).mp hq').1, ((fcQual_iff g color a b).mp hq').2⟩
        rcases hp with (((hp | hp) | hp) | hp) | hp
        · subst hp
          exact ⟨hq, hq, Relation.ReflTransGen.refl⟩
        · obtain ⟨hqp, hqs, hr⟩ := i1.2.2.2 p hp
          exact ⟨hqp, hq, hstep x (y + 1) (by simp [nbrs]) hqs p hr⟩
        · obtain ⟨hqp, hqs, hr⟩ := i2.2.2.2 p hp
          exact ⟨hqp, hq, hstep x (y - 1) (by simp [nbrs]) hqs p hr⟩
        · obtain ⟨hqp, hqs, hr⟩ := i3.2.2.2 p hp
          exact ⟨hqp, hq, hstep (x + 1) y (by simp [nbrs]) hqs p hr⟩
        · obtain ⟨hqp, hqs, hr⟩ := i4.2.2.2 p hp
          exact ⟨hqp, hq, hstep (x - 1) y (by simp [nbrs]) hqs p hr⟩

theorem mem_rectFinset (g : GameGrid) (p : Int × Int) :
    p ∈ rectFinset g ↔ inB g p := by
  unfold rectFinset inB
  simp only [Finset.mem_image, Finset.mem_product, Finset.mem_range]
  constructor
  · rintro ⟨⟨a, b⟩, ⟨ha, hb⟩, rfl⟩
    dsimp only
    refine ⟨by positivity, by exact_mod_cast ha, by positivity, by exact_mod_cast hb⟩
  · rintro ⟨h1, h2, h3, h4⟩
    refine ⟨(p.1.toNat, p.2.toNat), ⟨by omega, by omega⟩, ?_⟩
    have e1 : (p.1.toNat : Int) = p.1 := Int.toNat_of_nonneg h1
    have e2 : (p.2.toNat : Int) = p.2 := Int.toNat_of_nonneg h3
    cases p
    simp only at e1 e2
    simp [e1, e2]

theorem card_rectFinset (g : GameGrid) : (rectFinset g).card = g.width * g.height := by
  unfold rectFinset
  rw [Finset.card_image_of_injective]
  · rw [Finset.card_product, Finset.card_range, Finset.card_range]
  · intro a b hab
    have h1 := congrArg Prod.fst hab
    have h2 := congrArg Prod.snd hab
    simp only at h1 h2
    have : a.1 = b.1 := by exact_mod_cast h1
    have : a.2 = b.2 := by exact_mod_cast h2
    cases a; cases b; simp_all

theorem fcQual_mem_rect (g : GameGrid) (color : Nat) (x y : Int)
    (hq : fcQual g color x y) : (x, y) ∈ rectFinset g := by
  rw [mem_rectFinset]
  exact ((fcQual_iff g color x y).mp hq).1

theorem fcAux_closure (g : GameGrid) (color : Nat) :
    ∀ (fuel : Nat) (x y : Int) (V : Finset (Int × Int)),
      (rectFinset g \ V).card + 1 ≤ fuel →
      (∀ p ∈ (fcAux g fuel x y color V).1, ∀ q ∈ nbrs p.1 p.2,
          fcQual g color q.1 q.2 → q ∈ (fcAux g fuel x y color V).2) ∧
      (fcQual g color x y → (x, y) ∈ (fcAux g fuel x y color V).2) ∧
      (fcQual g color x y → (x, y) ∉ V → (x, y) ∈ (fcAux g fuel x y color V).1) := by
  intro fuel
  induction fuel with
  | zero =>
    intro x y V hfuel
    omega
  | succ fuel ih =>
    intro x y V hfuel
    by_cases hv : (x, y) ∈ V
    · rw [fcAux_eq_of_mem g color fuel x y V hv]
      exact ⟨by simp, fun _ => hv, fun _ hcon => absurd hv hcon⟩
    by_cases hq : fcQual g color x y
    case neg =>
      rw [fcAux_eq_of_fail g color fuel x y V hv hq]
      exact ⟨by simp, fun hcon => absurd hcon hq, fun hcon => absurd hcon hq⟩
    case pos =>
      obtain ⟨r1, r2, r3, r4, e1, e2, e3, e4, heq⟩ := fcAux_go_ex g color fuel x y V hv hq
      rw [heq]
      have hrect : (x, y) ∈ rectFinset g \ V :=
        Finset.mem_sdiff.mpr ⟨fcQual_mem_rect g color x y hq, hv⟩
      have hcard : (rectFinset g \ insert (x, y) V).card + 1 ≤ fuel := by
        have hsd : rectFinset g \ insert (x, y) V = (rectFinset g \ V).erase (x, y) :=
          Finset.sdiff_insert (rectFinset g) V (x, y)
        rw [hsd, Finset.card_erase_of_mem hrect]
        have hpos : 0 < (rectFinset g \ V).card := Finset.card_pos.mpr ⟨(x, y), hrect⟩
        omega
      have s1 := fcAux_sound g color fuel x (y + 1) (insert (x, y) V)
      rw [← e1] at s1
      have s2 := fcAux_sound g color fuel x (y - 1) r1.2
      rw [← e2] at s2
      have s3 := fcAux_sound g color fuel (x + 1) y r2.2
      rw [← e3] at s3
      have s4 := fcAux_sound g color fuel (x - 1) y r3.2
      rw [← e4] at s4
      have hv01 : insert (x, y) V ⊆ r1.2 := s1.1
      have hv12 : r1.2 ⊆ r2.2 := s2.1
      have hv23 : r2.2 ⊆ r3.2 := s3.1
      have hv34 : r3.2 ⊆ r4.2 := s4.1
      have hcard1 : (rectFinset g \ r1.2).card + 1 ≤ fuel := by
        have := Finset.card_le_card
          (Finset.sdiff_subset_sdiff (Finset.Subset.refl (rectFinset g)) hv01)
        omega
      have hcard2 : (rectFinset g \ r2.2).card + 1 ≤ fuel := by
        have := Finset.card_le_card
          (Finset.sdiff_subset_sdiff (Finset.Subset.refl (rectFinset g))
            (Finset.Subset.trans hv01 hv12))
        omega
      have hcard3 : (rectFinset g \ r3.2).card + 1 ≤ fuel := by
        have := Finset.card_le_card
          (Finset.sdiff_subset_sdiff (Finset.Subset.refl (rectFinset g))
            (Finset.Subset.trans hv01 (Finset.Subset.trans hv12 hv23)))
        omega
      have c1 := ih x (y + 1) (insert (x, y) V) hcard
      rw [← e1] at c1
      have c2 := ih x (y - 1) r1.2 hcard1
      rw [← e2] at c2
      have c3 := ih (x + 1) y r2.2 hcard2
      rw [← e3] at c3
      have c4 := ih (x - 1) y r3.2 hcard3
      rw [← e4] at c4
      refine ⟨?_, ?_, ?_⟩
      · intro p hp q hqmem hqq
        simp only [Finset.mem_union, Finset.mem_singleton] at hp
        rcases hp with (((hp | hp) | hp) | hp) | hp
        · subst hp
          simp only [nbrs, List.mem_cons, List.mem_singleton] at hqmem
          rcases hqmem with hqe | hqe | hqe | (hqe | hfalse)
          · subst hqe
            exact hv34 (hv23 (hv12 (c1.2.1 hqq)))
          · subst hqe
            exact hv34 (hv23 (c2.2.1 hqq))
          · subst hqe
            exact hv34 (c3.2.1 hqq)
          · subst hqe
            exact c4.2.1 hqq
          · exact absurd hfalse (List.not_mem_nil q)
        · exact hv34 (hv23 (hv12 (c1.1 p hp q hqmem hqq)))
        · exact hv34 (hv23 (c2.1 p hp q hqmem hqq))
        · exact hv34 (c3.1 p hp q hqmem hqq)
        · exact c4.1 p hp q hqmem hqq
      · intro _
        exact hv34 (hv23 (hv12 (hv01 (Finset.mem_insert_self (x, y) V))))
      · intro _ _
        simp

theorem fcAux_complete (g : GameGrid) (color fuel : Nat) (x y : Int)
    (V : Finset (Int × Int)) (hfuel : (rectFinset g \ V).card + 1 ≤ fuel)
    (hq : fcQual g color x y)
    (hdisj : ∀ q : Int × Int, ReachC g color (x, y) q → q ∉ V) :
    ∀ q, ReachC g color (x, y) q → q ∈ (fcAux g fuel x y color V).1 := by
  intro q hr
  induction hr with
  | refl =>
    exact (fcAux_closure g color fuel x y V hfuel).2.2 hq
      (hdisj (x, y) Relation.ReflTransGen.refl)
  | tail hab hbc ih =>
    rename_i b c
    have hcC : c ∈ (fcAux g fuel x y color V).2 := by
      refine (fcAux_closure g color fuel x y V hfuel).1 b ih c hbc.1 ?_
      exact (fcQual_iff g color c.1 c.2).mpr ⟨hbc.2.1, hbc.2.2⟩
    have hunion := (fcAux_sound g color fuel x y V).2.1
    rw [hunion] at hcC
    rcases Finset.mem_union.mp hcC with hcV | hcIn
    · exact absurd hcV (hdisj c (Relation.ReflTransGen.tail hab hbc))
    · exact hcIn


theorem reach_qual (g : GameGrid) (color : Nat) (p q : Int × Int)
    (hp : inB g p ∧ cellAt g p = color) (h : ReachC g color p q) :
    inB g q ∧ cellAt g q = color := by
  induction h with
  | refl => exact hp
  | tail hab hbc ih => exact ⟨hbc.2.1, hbc.2.2⟩

theorem nbrs_symm (p q : Int × Int) (h : q ∈ nbrs p.1 p.2) : p ∈ nbrs q.1 q.2 := by
  obtain ⟨px, py⟩ := p
  obtain ⟨qx, qy⟩ := q
  simp only [nbrs, List.mem_cons, List.not_mem_nil, or_false, Prod.mk.injEq] at h ⊢
  omega

theorem reach_symm (g : GameGrid) (color : Nat) (p q : Int × Int)
    (hp : inB g p ∧ cellAt g p = color) (h : ReachC g color p q) :
    ReachC g color q p := by
  induction h with
  | refl => exact Relation.ReflTransGen.refl
  | tail hab hbc ih =>
    rename_i b c
    refine Relation.ReflTransGen.trans (Relation.ReflTransGen.single ?_) ih
    have hbq : inB g b ∧ cellAt g b = color := reach_qual g color p b hp hab
    exact ⟨nbrs_symm b c hbc.1, hbq.1, hbq.2⟩

theorem mem_compSet_self (g : GameGrid) (p : Int × Int) : p ∈ compSet g p :=
  Relation.ReflTransGen.refl

theorem compSet_mem_qual (g : GameGrid) (p q : Int × Int) (hp : inB g p)
    (hq : q ∈ compSet g p) : inB g q ∧ cellAt g q = cellAt g p :=
  reach_qual g (cellAt g p) p q ⟨hp, rfl⟩ hq

theorem compSet_eq_of_mem (g : GameGrid) (p q : Int × Int) (hp : inB g p)
    (hq : q ∈ compSet g p) : compSet g q = compSet g p := by
  have hqq := compSet_mem_qual g p q hp hq
  unfold compSet at hq ⊢
  ext r
  simp only [Set.mem_setOf_eq] at hq ⊢
  rw [hqq.2]
  constructor
  · intro h
    exact Relation.ReflTransGen.trans hq h
  · intro h
    exact Relation.ReflTransGen.trans (reach_symm g (cellAt g p) p q ⟨hp, rfl⟩ hq) h

theorem compSet_finite (g : GameGrid) (p : Int × Int) (hp : inB g p) :
    (compSet g p).Finite := by
  apply Set.Finite.subset (rectFinset g).finite_toSet
  intro q hq
  rw [Finset.mem_coe, mem_rectFinset]
  exact (compSet_mem_qual g p q hp hq).1

theorem qcFinite (g : GameGrid) (X : Set (Int × Int)) (hX : ∀ p ∈ X, inB g p) :
    {S : Set (Int × Int) | (∃ p, p ∈ X ∧ S = compSet g p) ∧ 4 ≤ S.ncard}.Finite := by
  apply Set.Finite.subset (Set.Finite.finite_subsets (rectFinset g).finite_toSet)
  rintro S ⟨⟨p, hpX, rfl⟩, -⟩
  intro q hq
  rw [Finset.mem_coe, mem_rectFinset]
  exact (compSet_mem_qual g p q (hX p hpX) hq).1

theorem find_connected_spec (g : GameGrid) (color : Nat) (x y : Int)
    (V : Finset (Int × Int)) (hq : fcQual g color x y)
    (hdisj : ∀ q : Int × Int, ReachC g color (x, y) q → q ∉ V) :
    (∀ p : Int × Int, p ∈ (find_connected_puyos g x y color V).1 ↔
      ReachC g color (x, y) p) ∧
    (find_connected_puyos g x y color V).2 = V ∪ (find_connected_puyos g x y color V).1 ∧
    ∀ p ∈ (find_connected_puyos g x y color V).1, p ∉ V := by
  have hfuel : (rectFinset g \ V).card + 1 ≤ g.width * g.height + 1 := by
    have h1 : (rectFinset g \ V).card ≤ (rectFinset g).card :=
      Finset.card_le_card (Finset.sdiff_subset)
    rw [card_rectFinset] at h1
    omega
  unfold find_connected_puyos
  refine ⟨?_, (fcAux_sound g color _ x y V).2.1, (fcAux_sound g color _ x y V).2.2.1⟩
  intro p
  constructor
  · intro hp
    exact ((fcAux_sound g color _ x y V).2.2.2 p hp).2.2
  · intro hr
    exact fcAux_complete g color _ x y V hfuel hq hdisj p hr


theorem facFold_invariant (g : GameGrid) :
    ∀ (l : List (Int × Int)) (st : Finset (Int × Int) × Finset (Int × Int) × Nat),
      (∀ a ∈ l, inB g a) →
      (∀ p ∈ st.1, (inB g p ∧ cellAt g p ≠ 0) ∧ compSet g p ⊆ ↑st.1) →
      (∀ p : Int × Int, p ∈ st.2.1 ↔ p ∈ st.1 ∧ 4 ≤ (compSet g p).ncard) →
      st.2.2 = {S : Set (Int × Int) |
        (∃ p, p ∈ (st.1 : Set (Int × Int)) ∧ S = compSet g p) ∧ 4 ≤ S.ncard}.ncard →
      (∀ p ∈ (l.foldl (scanStep g) st).1, (inB g p ∧ cellAt g p ≠ 0) ∧
          compSet g p ⊆ ↑(l.foldl (scanStep g) st).1) ∧
      (∀ p : Int × Int, p ∈ (l.foldl (scanStep g) st).2.1 ↔
          p ∈ (l.foldl (scanStep g) st).1 ∧ 4 ≤ (compSet g p).ncard) ∧
      (l.foldl (scanStep g) st).2.2 = {S : Set (Int × Int) |
          (∃ p, p ∈ ((l.foldl (scanStep g) st).1 : Set (Int × Int)) ∧ S = compSet g p) ∧
          4 ≤ S.ncard}.ncard ∧
      st.1 ⊆ (l.foldl (scanStep g) st).1 ∧
      (∀ a ∈ l, cellAt g a ≠ 0 → a ∈ (l.foldl (scanStep g) st).1) := by
  intro l
  induction l with
  | nil =>
    intro st hlin inv1 inv2 inv3
    exact ⟨inv1, inv2, inv3, Finset.Subset.refl _, by simp⟩
  | cons a l ih =>
    intro st hlin inv1 inv2 inv3
    have ha : inB g a := hlin a (List.mem_cons_self a l)
    have hl : ∀ b ∈ l, inB g b := fun b hb => hlin b (List.mem_cons_of_mem a hb)
    rw [List.foldl_cons]
    by_cases hc : a ∉ st.1 ∧ cellAt g a ≠ 0
    case neg =>
      have hstep : scanStep g st a = st := by
        unfold scanStep
        rw [if_neg hc]
      rw [hstep]
      obtain ⟨j1, j2, j3, j4, j5⟩ := ih st hl inv1 inv2 inv3
      refine ⟨j1, j2, j3, j4, ?_⟩
      intro b hb hbne
      rcases List.mem_cons.mp hb with hb | hb
      · subst hb
        have hbV : b ∈ st.1 := by
          by_contra hbV
          exact hc ⟨hbV, hbne⟩
        exact j4 hbV
      · exact j5 b hb hbne
    case pos =>
      have hq : fcQual g (cellAt g a) a.1 a.2 :=
        (fcQual_iff g (cellAt g a) a.1 a.2).mpr ⟨ha, rfl⟩
      have hdisj : ∀ q : Int × Int, ReachC g (cellAt g a) (a.1, a.2) q → q ∉ st.1 := by
        intro q hrq hqV
        have hqmem : q ∈ compSet g a := hrq
        have hcomp : compSet g q = compSet g a := compSet_eq_of_mem g a q ha hqmem
        have haq : a ∈ compSet g q := by
          rw [hcomp]
          exact mem_compSet_self g a
        exact hc.1 ((inv1 q hqV).2 haq)
      obtain ⟨spec1, spec2, spec3⟩ :=
        find_connected_spec g (cellAt g a) a.1 a.2 st.1 hq hdisj
      have hrset : ↑(find_connected_puyos g a.1 a.2 (cellAt g a) st.1).1 = compSet g a := by
        ext p
        rw [Finset.mem_coe]
        exact spec1 p
      have hcardeq : (find_connected_puyos g a.1 a.2 (cellAt g a) st.1).1.card =
          (compSet g a).ncard := by
        rw [← hrset, Set.ncard_coe_Finset]
      have hain : a ∈ (find_connected_puyos g a.1 a.2 (cellAt g a) st.1).1 := by
        rw [← Finset.mem_coe, hrset]
        exact mem_compSet_self g a
      have hstep : scanStep g st a =
          (if 4 ≤ (find_connected_puyos g a.1 a.2 (cellAt g a) st.1).1.card then
            ((find_connected_puyos g a.1 a.2 (cellAt g a) st.1).2,
             st.2.1 ∪ (find_connected_puyos g a.1 a.2 (cellAt g a) st.1).1, st.2.2 + 1)
          else
            ((find_connected_puyos g a.1 a.2 (cellAt g a) st.1).2,
             st.2.1, st.2.2)) := by
        unfold scanStep
        rw [if_pos hc]
      have hoccr : ∀ p ∈ (find_connected_puyos g a.1 a.2 (cellAt g a) st.1).1,
          (inB g p ∧ cellAt g p ≠ 0) ∧ compSet g p = compSet g a := by
        intro p hp
        have hpc : p ∈ compSet g a := by
          rw [← hrset]
          exact hp
        obtain ⟨hinb, hcell⟩ := compSet_mem_qual g a p ha hpc
        exact ⟨⟨hinb, by rw [hcell]; exact hc.2⟩, compSet_eq_of_mem g a p ha hpc⟩
      have hV' : (find_connected_puyos g a.1 a.2 (cellAt g a) st.1).2 =
          st.1 ∪ (find_connected_puyos g a.1 a.2 (cellAt g a) st.1).1 := spec2
      have inv1' : ∀ p ∈ (find_connected_puyos g a.1 a.2 (cellAt g a) st.1).2,
          (inB g p ∧ cellAt g p ≠ 0) ∧
          compSet g p ⊆ ↑(find_connected_puyos g a.1 a.2 (cellAt g a) st.1).2 := by
        intro p hp
        rw [hV'] at hp ⊢
        rcases Finset.mem_union.mp hp with hp | hp
        · refine ⟨(inv1 p hp).1, ?_⟩
          refine Set.Subset.trans (inv1 p hp).2 ?_
          rw [Finset.coe_union]
          exact Set.subset_union_left
        · refine ⟨(hoccr p hp).1, ?_⟩
          rw [(hoccr p hp).2, ← hrset, Finset.coe_union]
          exact Set.subset_union_right
      have hasub : st.1 ⊆ (find_connected_puyos g a.1 a.2 (cellAt g a) st.1).2 := by
        rw [hV']
        exact Finset.subset_union_left
      have hanew : cellAt g a ≠ 0 → a ∈ (find_connected_puyos g a.1 a.2 (cellAt g a) st.1).2 := by
        intro _
        rw [hV']
        exact Finset.mem_union_right _ hain
      by_cases hbig : 4 ≤ (find_connected_puyos g a.1 a.2 (cellAt g a) st.1).1.card
      · rw [hstep, if_pos hbig]
        have inv2' : ∀ p : Int × Int,
            p ∈ st.2.1 ∪ (find_connected_puyos g a.1 a.2 (cellAt g a) st.1).1 ↔
            p ∈ (find_connected_puyos g a.1 a.2 (cellAt g a) st.1).2 ∧
              4 ≤ (compSet g p).ncard := by
          intro p
          constructor
          · intro hp
            rcases Finset.mem_union.mp hp with hp | hp
            · obtain ⟨hpV, hpcard⟩ := (inv2 p).mp hp
              exact ⟨hasub hpV, hpcard⟩
            · refine ⟨by rw [hV']; exact Finset.mem_union_right _ hp, ?_⟩
              rw [(hoccr p hp).2, ← hcardeq]
              exact hbig
          · rintro ⟨hpW, hpcard⟩
            rw [hV'] at hpW
            rcases Finset.mem_union.mp hpW with hp | hp
            · exact Finset.mem_union_left _ ((inv2 p).mpr ⟨hp, hpcard⟩)
            · exact Finset.mem_union_right _ hp
        have hQCnotin : compSet g a ∉ {S : Set (Int × Int) |
            (∃ p, p ∈ (st.1 : Set (Int × Int)) ∧ S = compSet g p) ∧ 4 ≤ S.ncard} := by
          rintro ⟨⟨p, hpV, hS⟩, -⟩
          have haa : a ∈ compSet g p := by
            rw [← hS]
            exact mem_compSet_self g a
          exact hc.1 ((inv1 p hpV).2 haa)
        have hQCeq : {S : Set (Int × Int) |
            (∃ p, p ∈ ((find_connected_puyos g a.1 a.2 (cellAt g a) st.1).2 :
              Set (Int × Int)) ∧ S = compSet g p) ∧ 4 ≤ S.ncard} =
            insert (compSet g a) {S : Set (Int × Int) |
              (∃ p, p ∈ (st.1 : Set (Int × Int)) ∧ S = compSet g p) ∧ 4 ≤ S.ncard} := by
          ext S
          simp only [Set.mem_setOf_eq, Set.mem_insert_iff]
          constructor
          · rintro ⟨⟨p, hpW, rfl⟩, hScard⟩
            rw [Finset.mem_coe, hV'] at hpW
            rcases Finset.mem_union.mp hpW with hp | hp
            · exact Or.inr ⟨⟨p, hp, rfl⟩, hScard⟩
            · exact Or.inl (hoccr p hp).2
          · rintro (rfl | ⟨⟨p, hpV, rfl⟩, hScard⟩)
            · refine ⟨⟨a, ?_, rfl⟩, by rw [← hcardeq]; exact hbig⟩
              rw [Finset.mem_coe]
              exact hanew hc.2
            · refine ⟨⟨p, ?_, rfl⟩, hScard⟩
              rw [Finset.mem_coe]
              exact hasub hpV
        have inv3' : st.2.2 + 1 = {S : Set (Int × Int) |
            (∃ p, p ∈ ((find_connected_puyos g a.1 a.2 (cellAt g a) st.1).2 :
              Set (Int × Int)) ∧ S = compSet g p) ∧ 4 ≤ S.ncard}.ncard := by
          rw [hQCeq, Set.ncard_insert_of_not_mem hQCnotin
            (qcFinite g ↑st.1 (fun p hp => (inv1 p (Finset.mem_coe.mp hp)).1.1)), ← inv3]
        obtain ⟨j1, j2, j3, j4, j5⟩ := ih
          ((find_connected_puyos g a.1 a.2 (cellAt g a) st.1).2,
            st.2.1 ∪ (find_connected_puyos g a.1 a.2 (cellAt g a) st.1).1, st.2.2 + 1)
          hl inv1' inv2' inv3'
        refine ⟨j1, j2, j3, Finset.Subset.trans hasub j4, ?_⟩
        intro b hb hbne
        rcases List.mem_cons.mp hb with hb | hb
        · subst hb
          exact j4 (hanew hbne)
        · exact j5 b hb hbne
      · rw [hstep, if_neg hbig]
        have inv2' : ∀ p : Int × Int, p ∈ st.2.1 ↔
            p ∈ (find_connected_puyos g a.1 a.2 (cellAt g a) st.1).2 ∧
              4 ≤ (compSet g p).ncard := by
          intro p
          constructor
          · intro hp
            obtain ⟨hpV, hpcard⟩ := (inv2 p).mp hp
            exact ⟨hasub hpV, hpcard⟩
          · rintro ⟨hpW, hpcard⟩
            rw [hV'] at hpW
            rcases Finset.mem_union.mp hpW with hp | hp
            · exact (inv2 p).mpr ⟨hp, hpcard⟩
            · exfalso
              rw [(hoccr p hp).2, ← hcardeq] at hpcard
              exact hbig hpcard
        have hQCeq : {S : Set (Int × Int) |
            (∃ p, p ∈ ((find_connected_puyos g a.1 a.2 (cellAt g a) st.1).2 :
              Set (Int × Int)) ∧ S = compSet g p) ∧ 4 ≤ S.ncard} =
            {S : Set (Int × Int) |
              (∃ p, p ∈ (st.1 : Set (Int × Int)) ∧ S = compSet g p) ∧ 4 ≤ S.ncard} := by
          ext S
          simp only [Set.mem_setOf_eq]
          constructor
          · rintro ⟨⟨p, hpW, rfl⟩, hScard⟩
            rw [Finset.mem_coe, hV'] at hpW
            rcases Finset.mem_union.mp hpW with hp | hp
            · exact ⟨⟨p, hp, rfl⟩, hScard⟩
            · exfalso
              rw [(hoccr p hp).2, ← hcardeq] at hScard
              exact hbig hScard
          · rintro ⟨⟨p, hpV, rfl⟩, hScard⟩
            refine ⟨⟨p, ?_, rfl⟩, hScard⟩
            rw [Finset.mem_coe]
            exact hasub hpV
        have inv3' : st.2.2 = {S : Set (Int × Int) |
            (∃ p, p ∈ ((find_connected_puyos g a.1 a.2 (cellAt g a) st.1).2 :
              Set (Int × Int)) ∧ S = compSet g p) ∧ 4 ≤ S.ncard}.ncard := by
          rw [hQCeq, ← inv3]
        obtain ⟨j1, j2, j3, j4, j5⟩ := ih
          ((find_connected_puyos g a.1 a.2 (cellAt g a) st.1).2, st.2.1, st.2.2)
          hl inv1' inv2' inv3'
        refine ⟨j1, j2, j3, Finset.Subset.trans hasub j4, ?_⟩
        intro b hb hbne
        rcases List.mem_cons.mp hb with hb | hb
        · subst hb
          exact j4 (hanew hbne)
        · exact j5 b hb hbne


theorem scanList_mem (g : GameGrid) (p : Int × Int) : p ∈ scanList g ↔ inB g p := by
  unfold scanList
  rw [List.mem_flatMap]
  constructor
  · rintro ⟨y, hy, hp⟩
    rw [List.mem_map] at hp
    obtain ⟨x, hx, rfl⟩ := hp
    rw [List.mem_range] at hx hy
    unfold inB
    dsimp only
    exact ⟨Int.natCast_nonneg x, by exact_mod_cast hx, Int.natCast_nonneg y,
      by exact_mod_cast hy⟩
  · intro hp
    obtain ⟨h1, h2, h3, h4⟩ := hp
    refine ⟨p.2.toNat, List.mem_range.mpr (by omega), ?_⟩
    rw [List.mem_map]
    refine ⟨p.1.toNat, List.mem_range.mpr (by omega), ?_⟩
    cases p
    dsimp only at h1 h3 ⊢
    rw [Int.toNat_of_nonneg h1, Int.toNat_of_nonneg h3]

theorem facState_spec (g : GameGrid) :
    (↑(facState g).1 : Set (Int × Int)) = {p | inB g p ∧ cellAt g p ≠ 0} ∧
    (↑(facState g).2.1 : Set (Int × Int)) = clearedSpecSet g ∧
    (facState g).2.2 = (qualComps g).ncard := by
  have hbase3 : (0 : Nat) = {S : Set (Int × Int) |
      (∃ p, p ∈ ((∅ : Finset (Int × Int)) : Set (Int × Int)) ∧ S = compSet g p) ∧
      4 ≤ S.ncard}.ncard := by
    have : {S : Set (Int × Int) |
        (∃ p, p ∈ ((∅ : Finset (Int × Int)) : Set (Int × Int)) ∧ S = compSet g p) ∧
        4 ≤ S.ncard} = ∅ := by
      ext S
      simp
    rw [this]
    simp
  obtain ⟨j1, j2, j3, j4, j5⟩ := facFold_invariant g (scanList g) (∅, ∅, 0)
    (fun a ha => (scanList_mem g a).mp ha)
    (by simp)
    (by simp)
    hbase3
  rw [show List.foldl (scanStep g) (∅, ∅, 0) (scanList g) = facState g from rfl]
    at j1 j2 j3 j4 j5
  have hV : (↑(facState g).1 : Set (Int × Int)) = {p | inB g p ∧ cellAt g p ≠ 0} := by
    ext p
    simp only [Finset.mem_coe, Set.mem_setOf_eq]
    constructor
    · intro hp
      exact (j1 p hp).1
    · intro hp
      exact j5 p ((scanList_mem g p).mpr hp.1) hp.2
  refine ⟨hV, ?_, ?_⟩
  · ext p
    rw [Finset.mem_coe, j2 p]
    unfold clearedSpecSet
    simp only [Set.mem_setOf_eq]
    constructor
    · rintro ⟨hpV, hcard⟩
      have := hV ▸ (Finset.mem_coe.mpr hpV)
      exact ⟨this.1, this.2, hcard⟩
    · rintro ⟨h1, h2, hcard⟩
      refine ⟨?_, hcard⟩
      have : p ∈ (↑(facState g).1 : Set (Int × Int)) := by
        rw [hV]
        exact ⟨h1, h2⟩
      exact Finset.mem_coe.mp this
  · rw [j3]
    congr 1
    rw [hV]
    unfold qualComps
    rfl

theorem fac_spec (g : GameGrid) :
    (↑(facState g).2.1 : Set (Int × Int)) = clearedSpecSet g ∧
    (find_and_clear_groups g).1.1 = (clearedSpecSet g).ncard ∧
    (find_and_clear_groups g).1.2 = (qualComps g).ncard ∧
    (find_and_clear_groups g).2 = clearCells g (facState g).2.1 := by
  obtain ⟨h1, h2, h3⟩ := facState_spec g
  refine ⟨h2, ?_, h3, rfl⟩
  show (facState g).2.1.card = (clearedSpecSet g).ncard
  rw [← h2, Set.ncard_coe_Finset]

theorem clearCells_width (g : GameGrid) (s : Finset (Int × Int)) :
    (clearCells g s).width = g.width := rfl

theorem clearCells_height (g : GameGrid) (s : Finset (Int × Int)) :
    (clearCells g s).height = g.height := rfl

theorem fac_cellAt (g : GameGrid) (q : Int × Int) (h1 : 0 ≤ q.1) (h2 : 0 ≤ q.2) :
    (q ∈ clearedSpecSet g → cellAt (find_and_clear_groups g).2 q = 0) ∧
    (q ∉ clearedSpecSet g → cellAt (find_and_clear_groups g).2 q = cellAt g q) := by
  have hT := (fac_spec g).1
  have hback : ((q.1.toNat : Int), (q.2.toNat : Int)) = q := by
    cases q
    simp only at h1 h2 ⊢
    rw [Int.toNat_of_nonneg h1, Int.toNat_of_nonneg h2]
  have hcell : cellAt (find_and_clear_groups g).2 q =
      if ((q.1.toNat : Int), (q.2.toNat : Int)) ∈ (facState g).2.1 then 0
      else g.cell q.1.toNat q.2.toNat := rfl
  constructor
  · intro hq
    rw [hcell, if_pos]
    rw [hback, ← Finset.mem_coe, hT]
    exact hq
  · intro hq
    rw [hcell, if_neg]
    · rfl
    · rw [hback, ← Finset.mem_coe, hT]
      exact hq


theorem cellAt_natCast (X : GameGrid) (a b : Nat) :
    cellAt X ((a : Int), (b : Int)) = X.cell a b := by
  unfold cellAt
  simp

/-- C1: `findAndClearGroups` clears a cell iff it belongs to a
4-directionally-connected component of size at least 4 whose cells are
all non-Empty and of a single color; it returns the number of cells
cleared and the number of distinct qualifying groups, returns `(0, 0)`
when no group qualifies, and leaves all other cells unchanged. -/
theorem claim1_find_and_clear (g : GameGrid) :
    (∀ a b : Nat,
      (((a : Int), (b : Int)) ∈ clearedSpecSet g →
        (find_and_clear_groups g).2.cell a b = 0) ∧
      (((a : Int), (b : Int)) ∉ clearedSpecSet g →
        (find_and_clear_groups g).2.cell a b = g.cell a b)) ∧
    (find_and_clear_groups g).1.1 = (clearedSpecSet g).ncard ∧
    (find_and_clear_groups g).1.2 = (qualComps g).ncard ∧
    (qualComps g = ∅ → (find_and_clear_groups g).1 = (0, 0)) := by
  refine ⟨?_, (fac_spec g).2.1, (fac_spec g).2.2.1, ?_⟩
  · intro a b
    have h := fac_cellAt g ((a : Int), (b : Int)) (Int.natCast_nonneg a) (Int.natCast_nonneg b)
    constructor
    · intro hmem
      rw [← cellAt_natCast]
      exact h.1 hmem
    · intro hmem
      have h2 := h.2 hmem
      rw [cellAt_natCast, cellAt_natCast] at h2
      exact h2
  · intro hqc
    have hspec : clearedSpecSet g = ∅ := by
      ext p
      simp only [Set.mem_empty_iff_false, iff_false]
      intro hp
      have hmem : compSet g p ∈ qualComps g := ⟨⟨p, ⟨hp.1, hp.2.1⟩, rfl⟩, hp.2.2⟩
      rw [hqc] at hmem
      exact hmem
    have h1 := (fac_spec g).2.1
    have h2 := (fac_spec g).2.2.1
    rw [hspec] at h1
    rw [hqc] at h2
    simp only [Set.ncard_empty] at h1 h2
    exact Prod.ext h1 h2

/-- Witness for C1: on the two-group board, the cell `(0, 11)` belongs
to a qualifying component and is indeed cleared. -/
theorem claim1_find_and_clear_witness :
    (((0 : Int), (11 : Int)) ∈ clearedSpecSet gridC3 ∧
      (find_and_clear_groups gridC3).2.cell 0 11 = 0) := by
  have hmem : ((0 : Int), (11 : Int)) ∈ clearedSpecSet gridC3 := by
    refine ⟨by decide, by decide, ?_⟩
    have hsub : (↑({((0 : Int), (10 : Int)), ((0 : Int), (11 : Int)),
        ((1 : Int), (11 : Int)), ((2 : Int), (11 : Int))} : Finset (Int × Int)) :
        Set (Int × Int)) ⊆ compSet gridC3 ((0 : Int), (11 : Int)) := by
      intro q hq
      simp only [Finset.coe_insert, Set.mem_insert_iff, Finset.coe_singleton,
        Set.mem_singleton_iff] at hq
      rcases hq with rfl | rfl | rfl | rfl
      · exact Relation.ReflTransGen.single ⟨by decide, by decide, by decide⟩
      · exact Relation.ReflTransGen.refl
      · exact Relation.ReflTransGen.single ⟨by decide, by decide, by decide⟩
      · have s1 : Relation.ReflTransGen
            (adjStep gridC3 (cellAt gridC3 ((0 : Int), (11 : Int))))
            ((0 : Int), (11 : Int)) ((1 : Int), (11 : Int)) :=
          Relation.ReflTransGen.single ⟨by decide, by decide, by decide⟩
        have s2 : adjStep gridC3 (cellAt gridC3 ((0 : Int), (11 : Int)))
            ((1 : Int), (11 : Int)) ((2 : Int), (11 : Int)) :=
          ⟨by decide, by decide, by decide⟩
        exact Relation.ReflTransGen.tail s1 s2
    have h4 : (4 : Nat) ≤ (compSet gridC3 ((0 : Int), (11 : Int))).ncard := by
      have hc : (↑({((0 : Int), (10 : Int)), ((0 : Int), (11 : Int)),
          ((1 : Int), (11 : Int)), ((2 : Int), (11 : Int))} : Finset (Int × Int)) :
          Set (Int × Int)).ncard = 4 := by
        rw [Set.ncard_coe_Finset]
        decide
      rw [← hc]
      exact Set.ncard_le_ncard hsub (compSet_finite gridC3 _ (by decide))
    exact h4
  exact ⟨hmem, ((claim1_find_and_clear gridC3).1 0 11).1 hmem⟩

/-- C9: immediately re-running `findAndClearGroups` returns `(0, 0)`
and changes nothing: after one call no qualifying component remains. -/
theorem claim9_fixed_point (g : GameGrid) :
    (find_and_clear_groups ((find_and_clear_groups g).2)).1 = (0, 0) ∧
    (∀ a b : Nat, (find_and_clear_groups ((find_and_clear_groups g).2)).2.cell a b =
      (find_and_clear_groups g).2.cell a b) := by
  have hcellAt : ∀ p : Int × Int, 0 ≤ p.1 → 0 ≤ p.2 →
      cellAt (find_and_clear_groups g).2 p ≠ 0 →
      p ∉ clearedSpecSet g ∧ cellAt (find_and_clear_groups g).2 p = cellAt g p := by
    intro p h1 h2 hne
    by_cases hm : p ∈ clearedSpecSet g
    · exact absurd ((fac_cellAt g p h1 h2).1 hm) hne
    · exact ⟨hm, (fac_cellAt g p h1 h2).2 hm⟩
  have hcompmono : ∀ p : Int × Int, inB g p → cellAt (find_and_clear_groups g).2 p ≠ 0 →
      compSet (find_and_clear_groups g).2 p ⊆ compSet g p := by
    intro p hp hne q hq
    obtain ⟨hnot, hceq⟩ := hcellAt p hp.1 hp.2.2.1 hne
    have hgne : cellAt g p ≠ 0 := by
      rw [← hceq]
      exact hne
    have hq2 : ReachC (find_and_clear_groups g).2
        (cellAt (find_and_clear_groups g).2 p) p q := hq
    rw [hceq] at hq2
    clear hq
    induction hq2 with
    | refl => exact mem_compSet_self g p
    | tail hab hbc ih =>
      rename_i b c
      refine Relation.ReflTransGen.tail ih ?_
      have hcinB : inB g c := hbc.2.1
      have hcne : cellAt (find_and_clear_groups g).2 c ≠ 0 := by
        rw [hbc.2.2]
        exact hgne
      obtain ⟨hcnot, hcceq⟩ := hcellAt c hcinB.1 hcinB.2.2.1 hcne
      refine ⟨hbc.1, hcinB, ?_⟩
      rw [← hcceq]
      exact hbc.2.2
  have hspec1 : clearedSpecSet (find_and_clear_groups g).2 = ∅ := by
    ext p
    simp only [Set.mem_empty_iff_false, iff_false]
    rintro ⟨hp1, hp2, hp3⟩
    have hpg : inB g p := hp1
    have hsub := hcompmono p hpg hp2
    have hcard : 4 ≤ (compSet g p).ncard :=
      le_trans hp3 (Set.ncard_le_ncard hsub (compSet_finite g p hpg))
    obtain ⟨hnot, hceq⟩ := hcellAt p hpg.1 hpg.2.2.1 hp2
    refine hnot ⟨hpg, ?_, hcard⟩
    rw [← hceq]
    exact hp2
  have hqc1 : qualComps (find_and_clear_groups g).2 = ∅ := by
    ext S
    simp only [Set.mem_empty_iff_false, iff_false]
    rintro ⟨⟨p, ⟨hp1, hp2⟩, rfl⟩, hcard⟩
    have : p ∈ clearedSpecSet (find_and_clear_groups g).2 := ⟨hp1, hp2, hcard⟩
    rw [hspec1] at this
    exact this
  constructor
  · have h1 := (fac_spec (find_and_clear_groups g).2).2.1
    have h2 := (fac_spec (find_and_clear_groups g).2).2.2.1
    rw [hspec1] at h1
    rw [hqc1] at h2
    simp only [Set.ncard_empty] at h1 h2
    exact Prod.ext h1 h2
  · intro a b
    have h := (fac_cellAt (find_and_clear_groups g).2 ((a : Int), (b : Int))
      (Int.natCast_nonneg a) (Int.natCast_nonneg b)).2
    rw [hspec1] at h
    have h2 := h (by simp)
    rw [cellAt_natCast, cellAt_natCast] at h2
    exact h2


theorem castPair_injective :
    Function.Injective (fun q : Nat × Nat => ((q.1 : Int), (q.2 : Int))) := by
  intro a b hab
  have h1 := congrArg Prod.fst hab
  have h2 := congrArg Prod.snd hab
  simp only at h1 h2
  have e1 : a.1 = b.1 := by exact_mod_cast h1
  have e2 : a.2 = b.2 := by exact_mod_cast h2
  cases a
  cases b
  simp_all

theorem col_filter_card (X : GameGrid) (x : Nat) :
    ((Finset.range X.height).filter (fun y => X.cell x y ≠ 0)).card =
      ((colList X x).filter (fun c => c ≠ 0)).length := by
  have h1 : ((Finset.range X.height).filter (fun y => X.cell x y ≠ 0)).card =
      ((List.range X.height).filter (fun y => decide (X.cell x y ≠ 0))).length := rfl
  rw [h1]
  unfold colList
  rw [← List.countP_eq_length_filter]
  conv_rhs => rw [← List.countP_eq_length_filter, List.countP_map]
  rfl

theorem occCount_eq_sum (g : GameGrid) :
    occCount g = ∑ x ∈ Finset.range g.width,
      ((Finset.range g.height).filter (fun y => g.cell x y ≠ 0)).card := by
  unfold occCount occFinset
  have himg : (rectFinset g).filter (fun p => cellAt g p ≠ 0) =
      ((Finset.range g.width ×ˢ Finset.range g.height).filter
        (fun q => g.cell q.1 q.2 ≠ 0)).image (fun q => ((q.1 : Int), (q.2 : Int))) := by
    unfold rectFinset
    ext p
    simp only [Finset.mem_filter, Finset.mem_image, Finset.mem_product, Finset.mem_range]
    constructor
    · rintro ⟨⟨⟨a, b⟩, ⟨ha, hb⟩, rfl⟩, hne⟩
      refine ⟨(a, b), ⟨⟨ha, hb⟩, ?_⟩, rfl⟩
      rw [cellAt_natCast] at hne
      exact hne
    · rintro ⟨⟨a, b⟩, ⟨⟨ha, hb⟩, hne⟩, rfl⟩
      refine ⟨⟨(a, b), ⟨ha, hb⟩, rfl⟩, ?_⟩
      rw [cellAt_natCast]
      exact hne
  rw [himg, Finset.card_image_of_injective _ castPair_injective]
  rw [Finset.card_eq_sum_card_fiberwise
    (show ∀ q ∈ (Finset.range g.width ×ˢ Finset.range g.height).filter
        (fun q => g.cell q.1 q.2 ≠ 0), q.1 ∈ Finset.range g.width from by
      intro q hq
      exact (Finset.mem_product.mp (Finset.mem_filter.mp hq).1).1)]
  apply Finset.sum_congr rfl
  intro x hx
  have hfib : ((Finset.range g.width ×ˢ Finset.range g.height).filter
      (fun q => g.cell q.1 q.2 ≠ 0)).filter (fun q => q.1 = x) =
      ((Finset.range g.height).filter (fun y => g.cell x y ≠ 0)).image (fun y => (x, y)) := by
    ext q
    simp only [Finset.mem_filter, Finset.mem_image, Finset.mem_product, Finset.mem_range]
    constructor
    · rintro ⟨⟨⟨hq1, hq2⟩, hne⟩, hqx⟩
      obtain ⟨a, b⟩ := q
      dsimp only at hqx hne hq2 ⊢
      subst hqx
      exact ⟨b, ⟨hq2, hne⟩, rfl⟩
    · rintro ⟨b, ⟨hb, hne⟩, rfl⟩
      exact ⟨⟨⟨Finset.mem_range.mp hx, hb⟩, hne⟩, rfl⟩
  rw [hfib, Finset.card_image_of_injective]
  intro a b hab
  exact (Prod.mk.injEq x a x b ▸ hab).2

theorem occ_gravity (g : GameGrid) : occCount (apply_gravity g) = occCount g := by
  rw [occCount_eq_sum, occCount_eq_sum]
  rw [apply_gravity_width]
  apply Finset.sum_congr rfl
  intro x hx
  rw [col_filter_card (apply_gravity g) x, col_filter_card g x]
  rw [gravity_filter_eq g x (Finset.mem_range.mp hx)]

theorem occ_le_cells (g : GameGrid) : occCount g ≤ g.width * g.height := by
  unfold occCount occFinset
  calc ((rectFinset g).filter (fun p => cellAt g p ≠ 0)).card ≤ (rectFinset g).card :=
        Finset.card_le_card (Finset.filter_subset _ _)
    _ = g.width * g.height := card_rectFinset g

theorem occ_clear (g : GameGrid) :
    (find_and_clear_groups g).1.1 ≤ occCount g ∧
    occCount (find_and_clear_groups g).2 = occCount g - (find_and_clear_groups g).1.1 := by
  have hT := (fac_spec g).1
  have hsubT : (facState g).2.1 ⊆ occFinset g := by
    intro p hp
    have hps : p ∈ clearedSpecSet g := by
      rw [← hT]
      exact Finset.mem_coe.mpr hp
    unfold occFinset
    rw [Finset.mem_filter, mem_rectFinset]
    exact ⟨hps.1, hps.2.1⟩
  have hrect : rectFinset (find_and_clear_groups g).2 = rectFinset g := rfl
  have hocc : occFinset (find_and_clear_groups g).2 = occFinset g \ (facState g).2.1 := by
    unfold occFinset
    ext p
    rw [hrect, Finset.mem_sdiff, Finset.mem_filter, Finset.mem_filter,
      mem_rectFinset]
    constructor
    · rintro ⟨hin, hne⟩
      have hinb : inB g p := hin
      by_cases hm : p ∈ clearedSpecSet g
      · exact absurd ((fac_cellAt g p hinb.1 hinb.2.2.1).1 hm) hne
      · have hceq := (fac_cellAt g p hinb.1 hinb.2.2.1).2 hm
        refine ⟨⟨hinb, by rw [← hceq]; exact hne⟩, ?_⟩
        intro hpT
        exact hm (by rw [← hT]; exact Finset.mem_coe.mpr hpT)
    · rintro ⟨⟨hin, hne⟩, hpT⟩
      have hm : p ∉ clearedSpecSet g := by
        intro hm
        have : p ∈ (↑(facState g).2.1 : Set (Int × Int)) := by
          rw [hT]
          exact hm
        exact hpT (Finset.mem_coe.mp this)
      have hceq := (fac_cellAt g p hin.1 hin.2.2.1).2 hm
      exact ⟨hin, by rw [hceq]; exact hne⟩
  constructor
  · exact Finset.card_le_card hsubT
  · show (occFinset (find_and_clear_groups g).2).card = _
    rw [hocc, Finset.card_sdiff hsubT]
    rfl

theorem clearedSpec_finite (g : GameGrid) : (clearedSpecSet g).Finite :=
  Set.Finite.subset (rectFinset g).finite_toSet
    (fun p hp => by rw [Finset.mem_coe, mem_rectFinset]; exact hp.1)

theorem cleared_ge_four (g : GameGrid) (hne : (find_and_clear_groups g).1.1 ≠ 0) :
    4 ≤ (find_and_clear_groups g).1.1 := by
  have hc := (fac_spec g).2.1
  rw [hc] at hne ⊢
  obtain ⟨p, hp⟩ := Set.nonempty_of_ncard_ne_zero hne
  have hsub : compSet g p ⊆ clearedSpecSet g := by
    intro q hq
    have hquals := compSet_mem_qual g p q hp.1 hq
    have hsame := compSet_eq_of_mem g p q hp.1 hq
    refine ⟨hquals.1, ?_, ?_⟩
    · rw [hquals.2]
      exact hp.2.1
    · rw [hsame]
      exact hp.2.2
  calc (4 : Nat) ≤ (compSet g p).ncard := hp.2.2
    _ ≤ (clearedSpecSet g).ncard := Set.ncard_le_ncard hsub (clearedSpec_finite g)

theorem pc_aux_succ (f : Nat) (g : GameGrid) (s c : Nat) :
    process_chains_aux (f + 1) g s c =
      if (find_and_clear_groups (apply_gravity g)).1.1 = 0 then
        ((find_and_clear_groups (apply_gravity g)).2, s, c)
      else process_chains_aux f (find_and_clear_groups (apply_gravity g)).2
        (s + (find_and_clear_groups (apply_gravity g)).1.1 * 10 *
          max 1 ((c + 1) * 2) * (find_and_clear_groups (apply_gravity g)).1.2)
        (c + 1) := rfl


theorem pc_aux_stable (n : Nat) :
    ∀ (g : GameGrid) (s c f1 f2 : Nat), occCount g ≤ n →
      occCount g / 4 + 1 ≤ f1 → occCount g / 4 + 1 ≤ f2 →
      process_chains_aux f1 g s c = process_chains_aux f2 g s c := by
  induction n with
  | zero =>
    intro g s c f1 f2 h0 hf1 hf2
    obtain ⟨a, rfl⟩ : ∃ a, f1 = a + 1 := ⟨f1 - 1, by omega⟩
    obtain ⟨b, rfl⟩ : ∃ b, f2 = b + 1 := ⟨f2 - 1, by omega⟩
    have hzero : (find_and_clear_groups (apply_gravity g)).1.1 = 0 := by
      have hle := (occ_clear (apply_gravity g)).1
      rw [occ_gravity] at hle
      omega
    rw [pc_aux_succ, pc_aux_succ, if_pos hzero, if_pos hzero]
  | succ n ih =>
    intro g s c f1 f2 h0 hf1 hf2
    obtain ⟨a, rfl⟩ : ∃ a, f1 = a + 1 := ⟨f1 - 1, by omega⟩
    obtain ⟨b, rfl⟩ : ∃ b, f2 = b + 1 := ⟨f2 - 1, by omega⟩
    rw [pc_aux_succ, pc_aux_succ]
    by_cases hc : (find_and_clear_groups (apply_gravity g)).1.1 = 0
    · rw [if_pos hc, if_pos hc]
    · rw [if_neg hc, if_neg hc]
      have h4 := cleared_ge_four (apply_gravity g) hc
      have hle := (occ_clear (apply_gravity g)).1
      have heq := (occ_clear (apply_gravity g)).2
      rw [occ_gravity] at hle heq
      apply ih
      · omega
      · omega
      · omega

theorem pc_aux_chain (f : Nat) :
    ∀ (g : GameGrid) (s c : Nat),
      (process_chains_aux f g s c).2.2 ≤ c + occCount g / 4 := by
  induction f with
  | zero =>
    intro g s c
    show c ≤ c + occCount g / 4
    omega
  | succ f ih =>
    intro g s c
    rw [pc_aux_succ]
    by_cases hc : (find_and_clear_groups (apply_gravity g)).1.1 = 0
    · rw [if_pos hc]
      show c ≤ c + occCount g / 4
      omega
    · rw [if_neg hc]
      have h4 := cleared_ge_four (apply_gravity g) hc
      have hle := (occ_clear (apply_gravity g)).1
      have heq := (occ_clear (apply_gravity g)).2
      rw [occ_gravity] at hle heq
      have hrec := ih (find_and_clear_groups (apply_gravity g)).2
        (s + (find_and_clear_groups (apply_gravity g)).1.1 * 10 *
          max 1 ((c + 1) * 2) * (find_and_clear_groups (apply_gravity g)).1.2) (c + 1)
      omega

/-- C7: the chain-resolution loop terminates: past `occCount g / 4 + 1`
rounds of fuel the result no longer depends on the fuel, the number of
clearing passes (the final chain counter, starting from 0) is bounded by
`occCount g / 4 ≤ width * height / 4`, and for the default 6 × 12 board
that bound is 18. -/
theorem claim7_chain_loop_terminates :
    (∀ (g : GameGrid) (s f1 f2 : Nat), occCount g / 4 + 1 ≤ f1 → occCount g / 4 + 1 ≤ f2 →
      process_chains_aux f1 g s 0 = process_chains_aux f2 g s 0) ∧
    (∀ (g : GameGrid) (s f : Nat), (process_chains_aux f g s 0).2.2 ≤ occCount g / 4) ∧
    (∀ g : GameGrid, occCount g / 4 ≤ g.width * g.height / 4) ∧
    (∀ g : GameGrid, occCount (apply_gravity g) = occCount g) ∧
    (∀ g : GameGrid, (find_and_clear_groups g).1.1 ≠ 0 →
      4 ≤ (find_and_clear_groups g).1.1 ∧
      occCount (find_and_clear_groups g).2 = occCount g - (find_and_clear_groups g).1.1) ∧
    (∀ (g : GameGrid) (s : Nat),
      process_chains g s = process_chains_aux (g.width * g.height / 4 + 1) g s 0) ∧
    (GameGrid.create 6 12).width * (GameGrid.create 6 12).height / 4 = 18 := by
  refine ⟨?_, ?_, ?_, occ_gravity,
    fun g hne => ⟨cleared_ge_four g hne, (occ_clear g).2⟩, fun g s => rfl, rfl⟩
  · intro g s f1 f2 h1 h2
    exact pc_aux_stable (occCount g) g s 0 f1 f2 le_rfl h1 h2
  · intro g s f
    have h := pc_aux_chain f g s 0
    omega
  · intro g
    exact Nat.div_le_div_right (occ_le_cells g)

/-- Witness for C7 at a concrete board and two fuels past the bound. -/
theorem claim7_chain_loop_terminates_witness :
    (occCount gridC3 / 4 + 1 ≤ 19) ∧ (occCount gridC3 / 4 + 1 ≤ 25) ∧
    (process_chains_aux 19 gridC3 0 0 = process_chains_aux 25 gridC3 0 0) ∧
    ((find_and_clear_groups gridC3).1.1 ≠ 0 ∧ 4 ≤ (find_and_clear_groups gridC3).1.1) :=
  ⟨by decide, by decide,
    claim7_chain_loop_terminates.1 gridC3 0 19 25 (by decide) (by decide),
    by decide, (claim7_chain_loop_terminates.2.2.2.2.1 gridC3 (by decide)).1⟩

/-- C3: `processChains` resets the chain counter to 0, and every pass of
the loop that clears at least one group increments the chain counter and
adds exactly `clearedCount * 10 * max(1, chainCounter * 2) *
groupsCleared` to the score, where `chainCounter` is the incremented
value for that pass. -/
theorem claim3_pass_score (g : GameGrid) (score chain fuel : Nat)
    (hne : (find_and_clear_groups (apply_gravity g)).1.1 ≠ 0) :
    process_chains g score = process_chains_aux (g.width * g.height / 4 + 1) g score 0 ∧
    process_chains_aux (fuel + 1) g score chain =
      process_chains_aux fuel (find_and_clear_groups (apply_gravity g)).2
        (score + (find_and_clear_groups (apply_gravity g)).1.1 * 10 *
          max 1 ((chain + 1) * 2) * (find_and_clear_groups (apply_gravity g)).1.2)
        (chain + 1) := by
  refine ⟨rfl, ?_⟩
  rw [pc_aux_succ, if_neg hne]

/-- Witness for C3: two separate groups of 4 clear in the same first
pass, and the pass adds `8 * 10 * 2 * 2 = 320` to the score. -/
theorem claim3_pass_score_witness :
    (find_and_clear_groups (apply_gravity gridC3)).1.1 ≠ 0 ∧
    (find_and_clear_groups (apply_gravity gridC3)).1 = (8, 2) ∧
    process_chains_aux (0 + 1) gridC3 0 0 =
      process_chains_aux 0 (find_and_clear_groups (apply_gravity gridC3)).2 320 (0 + 1) := by
  refine ⟨by decide, by decide, ?_⟩
  have h := (claim3_pass_score gridC3 0 0 0 (by decide)).2
  have hs : 0 + (find_and_clear_groups (apply_gravity gridC3)).1.1 * 10 *
      max 1 ((0 + 1) * 2) * (find_and_clear_groups (apply_gravity gridC3)).1.2 = 320 := by
    decide
  rw [hs] at h
  exact h

end Puyo
